import Mathlib

/-!
Verification of the PyCraft runtime core (entity/component/scene model,
system registry, script scheduler, scene serialization) against its
natural-language specification.

The Python source is shallowly embedded: every stateful object (entity,
component, scene, script system) becomes an explicit record; the heap of
Python objects becomes association lists keyed by allocation addresses;
each method becomes a state-transformer function mirroring the source
statement by statement.  Python `dict`s are embedded as association lists
with insertion-order semantics (`setA` replaces in place, `delA` removes
the first matching key), matching CPython's ordered dictionaries.
-/

namespace PyCraft

/-! ## Association lists with Python-dict semantics -/

/-- Lookup of the value stored under key `k` (first match). -/
def lookupA {α : Type} (k : Nat) : List (Nat × α) → Option α
  | [] => none
  | p :: ps => if p.1 = k then some p.2 else lookupA k ps

/-- `d[k] = v` on a Python dict: replace in place if the key is present,
append otherwise. -/
def setA {α : Type} (k : Nat) (v : α) : List (Nat × α) → List (Nat × α)
  | [] => [(k, v)]
  | p :: ps => if p.1 = k then (k, v) :: ps else p :: setA k v ps

/-- `del d[k]` on a Python dict: remove the first entry with key `k`. -/
def delA {α : Type} (k : Nat) : List (Nat × α) → List (Nat × α)
  | [] => []
  | p :: ps => if p.1 = k then ps else p :: delA k ps

/-- Replace the value under key `k` by `f` applied to it (mutation of a
heap object in place; no-op when the address is absent). -/
def modA {α : Type} (k : Nat) (f : α → α) : List (Nat × α) → List (Nat × α)
  | [] => []
  | p :: ps => if p.1 = k then (k, f p.2) :: ps else p :: modA k f ps

/-- The keys of an association list. -/
def keysA {α : Type} (l : List (Nat × α)) : List Nat := l.map Prod.fst

@[simp] theorem lookupA_nil {α : Type} (k : Nat) : lookupA (α := α) k [] = none := rfl

@[simp] theorem lookupA_cons {α : Type} (k : Nat) (p : Nat × α) (ps : List (Nat × α)) :
    lookupA k (p :: ps) = if p.1 = k then some p.2 else lookupA k ps := rfl

theorem lookupA_modA_ne {α : Type} (k k' : Nat) (f : α → α) (l : List (Nat × α))
    (h : k' ≠ k) : lookupA k (modA k' f l) = lookupA k l := by
  induction l with
  | nil => rfl
  | cons p ps ih =>
    simp only [modA]
    split
    · next hp => simp [lookupA, hp, h, Ne.symm h]
    · simp [lookupA, ih]

theorem lookupA_modA_eq {α : Type} (k : Nat) (f : α → α) (l : List (Nat × α)) :
    lookupA k (modA k f l) = (lookupA k l).map f := by
  induction l with
  | nil => rfl
  | cons p ps ih =>
    simp only [modA]
    split
    · next hp => simp [lookupA, hp]
    · next hp => simp [lookupA, hp, ih]

theorem lookupA_eq_none_of_not_mem {α : Type} (k : Nat) (l : List (Nat × α))
    (h : k ∉ keysA l) : lookupA k l = none := by
  induction l with
  | nil => rfl
  | cons p ps ih =>
    simp only [keysA, List.map_cons, List.mem_cons, not_or] at h
    rw [lookupA_cons, if_neg (fun hc => h.1 hc.symm)]
    exact ih h.2

theorem lookupA_delA_ne {α : Type} (k k' : Nat) (l : List (Nat × α))
    (h : k' ≠ k) : lookupA k (delA k' l) = lookupA k l := by
  induction l with
  | nil => rfl
  | cons p ps ih =>
    simp only [delA]
    split
    · next hp => simp [lookupA, hp, h]
    · simp [lookupA, ih]

theorem lookupA_delA_eq_of_nodup {α : Type} (k : Nat) (l : List (Nat × α))
    (h : (keysA l).Nodup) : lookupA k (delA k l) = none := by
  induction l with
  | nil => rfl
  | cons p ps ih =>
    simp only [keysA, List.map_cons, List.nodup_cons] at h
    simp only [delA]
    split
    · next hp =>
      subst hp
      exact lookupA_eq_none_of_not_mem _ _ h.1
    · next hp =>
      rw [lookupA_cons, if_neg hp]
      exact ih h.2

theorem keysA_delA_sublist {α : Type} (k : Nat) (l : List (Nat × α)) :
    (keysA (delA k l)).Sublist (keysA l) := by
  induction l with
  | nil => exact List.Sublist.refl _
  | cons p ps ih =>
    simp only [delA]
    split
    · exact List.sublist_cons_self p.1 (keysA ps)
    · exact List.Sublist.cons₂ _ ih

theorem lookupA_setA_eq {α : Type} (k : Nat) (v : α) (l : List (Nat × α)) :
    lookupA k (setA k v l) = some v := by
  induction l with
  | nil => simp [setA, lookupA]
  | cons p ps ih =>
    simp only [setA]
    split
    · simp [lookupA]
    · next hp => simp [lookupA, hp, ih]

theorem lookupA_setA_ne {α : Type} (k k' : Nat) (v : α) (l : List (Nat × α))
    (h : k' ≠ k) : lookupA k (setA k' v l) = lookupA k l := by
  induction l with
  | nil => simp [setA, lookupA, h]
  | cons p ps ih =>
    simp only [setA]
    split
    · next hp => simp [lookupA, hp, h]
    · simp [lookupA, ih]

theorem mem_setA_of_nodup {α : Type} (k : Nat) (v : α) (l : List (Nat × α)) (p : Nat × α)
    (hnd : (keysA l).Nodup) (h : p ∈ setA k v l) :
    p = (k, v) ∨ (p ∈ l ∧ p.1 ≠ k) := by
  induction l with
  | nil => simp [setA] at h; exact Or.inl h
  | cons q qs ih =>
    simp only [keysA, List.map_cons, List.nodup_cons] at hnd
    simp only [setA] at h
    split at h
    · next hq =>
      rcases List.mem_cons.mp h with h1 | h1
      · exact Or.inl h1
      · refine Or.inr ⟨List.mem_cons_of_mem q h1, ?_⟩
        intro hpk
        exact hnd.1 (by
          subst hq
          rw [← hpk]
          exact List.mem_map.mpr ⟨p, h1, rfl⟩)
    · next hq =>
      rcases List.mem_cons.mp h with h1 | h1
      · subst h1
        exact Or.inr ⟨List.mem_cons_self _ _, hq⟩
      · rcases ih hnd.2 h1 with h2 | h2
        · exact Or.inl h2
        · exact Or.inr ⟨List.mem_cons_of_mem q h2.1, h2.2⟩

/-! ## Script scheduler (src/engine/scripting/script_system.py)

A script instance (class `Script`) carries an `enabled` flag and an entity
back-reference.  Whether a given hook raises when invoked is a property of
the user-written subclass; it is embedded as per-phase Boolean flags.  The
scheduler's observable behaviour is its event trace: one event per hook
invocation, `err` when the hook raised and the scheduler caught and logged
the exception at the call site. -/

structure ScriptRec where
  sname : Nat
  enabled : Bool
  entity : Option Nat
  raisesUpdate : Bool
  raisesFixed : Bool
  raisesLate : Bool
deriving Repr, DecidableEq

inductive SEvent where
  | upd (sname : Nat) (dt : ℚ)
  | fixedUpd (sname : Nat) (dt : ℚ)
  | lateUpd (sname : Nat) (dt : ℚ)
  | err (sname : Nat)
deriving Repr, DecidableEq

/-- State of `ScriptSystem`: the fixed step and accumulator from
`__init__` (lines 138-139), the per-entity instance table, and — so that
the eligibility test `script.entity.enabled` can be evaluated — the
enabled flags of the entity objects the scripts point at. -/
structure ScriptSystemState where
  fixed_time_step : ℚ
  accumulated_time : ℚ
  script_instances : List (Nat × List ScriptRec)
  entsEnabled : List (Nat × Bool)
  initialized : Bool
deriving Repr, DecidableEq

/-- `script.enabled and script.entity and script.entity.enabled`
(script_system.py line 405).  A dangling entity id (never produced by the
source, where the reference is a live object) counts as disabled. -/
def eligibleScript (ents : List (Nat × Bool)) (s : ScriptRec) : Bool :=
  s.enabled && (match s.entity with
    | none => false
    | some e => (lookupA e ents).getD false)

/-- `try: script.update(dt) except: log` — one `upd` event, or `err` when
the script raises (the exception is caught at this call site). -/
def varEvent (dt : ℚ) (s : ScriptRec) : SEvent :=
  if s.raisesUpdate then .err s.sname else .upd s.sname dt

def fixedEvent (fdt : ℚ) (s : ScriptRec) : SEvent :=
  if s.raisesFixed then .err s.sname else .fixedUpd s.sname fdt

def lateEvent (dt : ℚ) (s : ScriptRec) : SEvent :=
  if s.raisesLate then .err s.sname else .lateUpd s.sname dt

/-- One pass over `list(self.script_instances.items())`: for every entity
entry, for every instance satisfying the eligibility test, one event. -/
def passEvents (mk : ScriptRec → SEvent) (ents : List (Nat × Bool))
    (insts : List (Nat × List ScriptRec)) : List SEvent :=
  (insts.map (fun p => (p.2.filter (eligibleScript ents)).map mk)).flatten

/-- `while self.accumulated_time >= self.fixed_time_step:` (line 416):
subtract one step and run a fixed-update pass each iteration.  The `0 <
step` conjunct renders the loop total; it agrees with the source whenever
the step is positive, which it always is (`1.0 / 60.0`, line 138). -/
def fixedLoop (ents : List (Nat × Bool)) (insts : List (Nat × List ScriptRec))
    (step : ℚ) (acc : ℚ) : List SEvent × ℚ :=
  if h : 0 < step ∧ step ≤ acc then
    let evs := passEvents (fixedEvent step) ents insts
    let rest := fixedLoop ents insts step (acc - step)
    (evs ++ rest.1, rest.2)
  else ([], acc)
termination_by (⌊acc / step⌋).toNat
decreasing_by
  have hstep : (0:ℚ) < step := h.1
  have hdiv : (acc - step) / step = acc / step - 1 := by
    rw [sub_div, div_self (ne_of_gt hstep)]
  have hone : (1:ℚ) ≤ acc / step := (one_le_div hstep).mpr h.2
  have hfl : 1 ≤ ⌊acc / step⌋ := by
    exact_mod_cast Int.le_floor.mpr (by exact_mod_cast hone)
  rw [hdiv, Int.floor_sub_one]
  omega

/-- `ScriptSystem.update` (lines 392-437): early-out when not
initialized; otherwise a variable-update pass, accumulation of `dt`,
zero or more fixed-update passes, then a late-update pass.  Result: the
event trace of the call and the state afterwards. -/
def ScriptSystem.update (dt : ℚ) (st : ScriptSystemState) :
    List SEvent × ScriptSystemState :=
  if st.initialized then
    let varEvs := passEvents (varEvent dt) st.entsEnabled st.script_instances
    let acc1 := st.accumulated_time + dt
    let r := fixedLoop st.entsEnabled st.script_instances st.fixed_time_step acc1
    let lateEvs := passEvents (lateEvent dt) st.entsEnabled st.script_instances
    (varEvs ++ r.1 ++ lateEvs, { st with accumulated_time := r.2 })
  else ([], st)

theorem fixedLoop_pos (ents : List (Nat × Bool)) (insts : List (Nat × List ScriptRec))
    (step acc : ℚ) (h : 0 < step ∧ step ≤ acc) :
    fixedLoop ents insts step acc =
      (passEvents (fixedEvent step) ents insts ++
        (fixedLoop ents insts step (acc - step)).1,
       (fixedLoop ents insts step (acc - step)).2) := by
  rw [fixedLoop.eq_def]
  simp [h]

theorem fixedLoop_neg (ents : List (Nat × Bool)) (insts : List (Nat × List ScriptRec))
    (step acc : ℚ) (h : ¬(0 < step ∧ step ≤ acc)) :
    fixedLoop ents insts step acc = ([], acc) := by
  rw [fixedLoop.eq_def]
  simp [h]

theorem mem_passEvents (mk : ScriptRec → SEvent) (ents : List (Nat × Bool))
    (insts : List (Nat × List ScriptRec)) (eid : Nat) (ss : List ScriptRec)
    (s : ScriptRec) (h1 : (eid, ss) ∈ insts) (h2 : s ∈ ss)
    (h3 : eligibleScript ents s = true) : mk s ∈ passEvents mk ents insts := by
  unfold passEvents
  refine List.mem_flatten.mpr ⟨(ss.filter (eligibleScript ents)).map mk, ?_, ?_⟩
  · exact List.mem_map.mpr ⟨(eid, ss), h1, rfl⟩
  · exact List.mem_map.mpr ⟨s, List.mem_filter.mpr ⟨h2, h3⟩, rfl⟩

theorem update_preserves_tables (dt : ℚ) (st : ScriptSystemState) :
    (ScriptSystem.update dt st).2.script_instances = st.script_instances ∧
    (ScriptSystem.update dt st).2.entsEnabled = st.entsEnabled ∧
    (ScriptSystem.update dt st).2.initialized = st.initialized := by
  unfold ScriptSystem.update
  by_cases h : st.initialized <;> simp [h]

theorem upd_mem_update_trace (dt : ℚ) (st : ScriptSystemState) (eid : Nat)
    (ss : List ScriptRec) (s : ScriptRec) (hinit : st.initialized = true)
    (hmem : (eid, ss) ∈ st.script_instances) (hs : s ∈ ss)
    (helig : eligibleScript st.entsEnabled s = true)
    (hok : s.raisesUpdate = false) :
    SEvent.upd s.sname dt ∈ (ScriptSystem.update dt st).1 := by
  unfold ScriptSystem.update
  rw [hinit]
  simp only [if_true]
  refine List.mem_append.mpr (Or.inl (List.mem_append.mpr (Or.inl ?_)))
  have : SEvent.upd s.sname dt = varEvent dt s := by
    unfold varEvent
    rw [hok]
    simp
  rw [this]
  exact mem_passEvents _ _ _ eid ss s hmem hs helig

/-- C4: for the script scheduler with `fixed_time_step = 1/60` and the
accumulator at `0`, whatever the script instance table is, one `update`
call with `dt = 1/30` performs exactly two fixed-update passes, each
invoked with argument `1/60` (the trace is: the variable pass, then two
copies of the fixed pass with argument `1/60`, then the late pass, and
the accumulator returns to `0`); one call with `dt = 0` performs zero
fixed-update passes. -/
theorem scriptSystem_fixed_step_accumulation :
    ∀ (insts : List (Nat × List ScriptRec)) (ents : List (Nat × Bool)),
      ScriptSystem.update (1/30) ⟨1/60, 0, insts, ents, true⟩ =
        (passEvents (varEvent (1/30)) ents insts ++
          (passEvents (fixedEvent (1/60)) ents insts ++
           passEvents (fixedEvent (1/60)) ents insts) ++
          passEvents (lateEvent (1/30)) ents insts,
         ⟨1/60, 0, insts, ents, true⟩) ∧
      ScriptSystem.update 0 ⟨1/60, 0, insts, ents, true⟩ =
        (passEvents (varEvent 0) ents insts ++ passEvents (lateEvent 0) ents insts,
         ⟨1/60, 0, insts, ents, true⟩) := by
  intro insts ents
  constructor
  · unfold ScriptSystem.update
    simp only [if_true]
    have h1 : (0:ℚ) + 1/30 = 1/30 := by norm_num
    rw [h1]
    rw [fixedLoop_pos _ _ _ _ ⟨by norm_num, by norm_num⟩]
    have h2 : (1:ℚ)/30 - 1/60 = 1/60 := by norm_num
    rw [h2]
    rw [fixedLoop_pos _ _ _ _ ⟨by norm_num, le_refl _⟩]
    have h3 : (1:ℚ)/60 - 1/60 = 0 := by norm_num
    rw [h3]
    rw [fixedLoop_neg _ _ _ _ (by norm_num)]
    simp [List.append_assoc]
  · unfold ScriptSystem.update
    simp only [if_true]
    have h1 : (0:ℚ) + 0 = 0 := by norm_num
    rw [h1]
    rw [fixedLoop_neg _ _ _ _ (by norm_num)]
    simp

/-- C8: if one script's `update` raises during the variable pass, every
other eligible tracked script still receives `update(dt)` in the same
frame — any eligible non-raising script's `upd` event is in the trace,
whatever the raising flags of the other instances are — and the instance
table survives the call unchanged, so the same scripts receive `update`
in every later frame as well. -/
theorem scriptSystem_update_failure_isolation
    (st : ScriptSystemState) (dt : ℚ) (eid : Nat) (ss : List ScriptRec)
    (s : ScriptRec) (hinit : st.initialized = true)
    (hmem : (eid, ss) ∈ st.script_instances) (hs : s ∈ ss)
    (helig : eligibleScript st.entsEnabled s = true)
    (hok : s.raisesUpdate = false) :
    SEvent.upd s.sname dt ∈ (ScriptSystem.update dt st).1 ∧
    (ScriptSystem.update dt st).2.script_instances = st.script_instances ∧
    ∀ dt' : ℚ,
      SEvent.upd s.sname dt' ∈ (ScriptSystem.update dt' (ScriptSystem.update dt st).2).1 := by
  obtain ⟨hi, he, hz⟩ := update_preserves_tables dt st
  refine ⟨upd_mem_update_trace dt st eid ss s hinit hmem hs helig hok, hi, ?_⟩
  intro dt'
  exact upd_mem_update_trace dt' _ eid ss s (by rw [hz, hinit])
    (by rw [hi]; exact hmem) hs (by rw [he]; exact helig) hok

/-- A concrete scheduler state: entity `0` carries a script (name `0`)
whose `update` raises and an eligible sibling (name `1`); entity `1`
carries another eligible script (name `2`). -/
def c8state : ScriptSystemState :=
  ⟨1/60, 0,
   [(0, [⟨0, true, some 0, true, false, false⟩, ⟨1, true, some 0, false, false, false⟩]),
    (1, [⟨2, true, some 1, false, false, false⟩])],
   [(0, true), (1, true)], true⟩

/-- Witness for C8 at a concrete input: the sibling (name `1`) of the
raising script on entity `0` still receives `update` in the same frame
and the next one. -/
theorem scriptSystem_update_failure_isolation_witness :
    SEvent.upd 1 1 ∈ (ScriptSystem.update 1 c8state).1 ∧
    (ScriptSystem.update 1 c8state).2.script_instances = c8state.script_instances ∧
    ∀ dt' : ℚ,
      SEvent.upd 1 dt' ∈ (ScriptSystem.update dt' (ScriptSystem.update 1 c8state).2).1 :=
  scriptSystem_update_failure_isolation c8state 1 0
    [⟨0, true, some 0, true, false, false⟩, ⟨1, true, some 0, false, false, false⟩]
    ⟨1, true, some 0, false, false, false⟩ rfl (by decide) (by decide) (by decide) rfl

/-! ## System registry (src/engine/core/ecs/system.py, scene.py lines 147-215)

A registered system is its integer `priority`, its `enabled` flag
(`System.__init__`), and a tag identifying the instance so the update
trace can name which systems ran in which order. -/

structure SysRec where
  priority : Int
  enabled : Bool
  tag : Nat
deriving Repr, DecidableEq

/-- Stable insertion into a list already ordered by priority: walk past
every element of strictly smaller priority, so the new element lands
after earlier elements of equal priority. -/
def insertByPriority (s : SysRec) : List SysRec → List SysRec
  | [] => [s]
  | t :: ts => if t.priority < s.priority then t :: insertByPriority s ts
               else s :: t :: ts

/-- `self.systems.sort(key=lambda s: s.priority)` (scene.py line 160):
Python's `list.sort` is a stable sort by the key; a stable sort's output
is determined by the key order and the input order alone, so it is
embedded as a stable insertion sort by `priority`. -/
def sortByPriority : List SysRec → List SysRec
  | [] => []
  | s :: ss => insertByPriority s (sortByPriority ss)

/-- `Scene.add_system` (scene.py lines 147-162): append, then re-sort the
whole list by priority. -/
def Scene.add_system (systems : List SysRec) (s : SysRec) : List SysRec :=
  sortByPriority (systems ++ [s])

/-- The system loop of `Scene.update` (scene.py lines 205-215): iterate
the system list in order, invoking `update(delta_time)` only on systems
whose `is_enabled()` is true; the trace records each invocation by tag. -/
def Scene.update_systems (dt : ℚ) : List SysRec → List (Nat × ℚ)
  | [] => []
  | s :: ss => if s.enabled then (s.tag, dt) :: Scene.update_systems dt ss
               else Scene.update_systems dt ss

theorem update_systems_eq_filter (dt : ℚ) (l : List SysRec) :
    Scene.update_systems dt l = (l.filter (·.enabled)).map (fun s => (s.tag, dt)) := by
  induction l with
  | nil => rfl
  | cons s ss ih =>
    by_cases h : s.enabled = true
    · simp [Scene.update_systems, List.filter_cons, h, ih]
    · simp only [Bool.not_eq_true] at h
      simp [Scene.update_systems, List.filter_cons, h, ih]

theorem mem_insertByPriority (b s : SysRec) (l : List SysRec)
    (hb : b ∈ insertByPriority s l) : b = s ∨ b ∈ l := by
  induction l with
  | nil => simpa [insertByPriority] using hb
  | cons u us ihu =>
    simp only [insertByPriority] at hb
    split at hb
    · rcases List.mem_cons.mp hb with h1 | h1
      · exact Or.inr (h1 ▸ List.mem_cons_self u us)
      · rcases ihu h1 with h2 | h2
        · exact Or.inl h2
        · exact Or.inr (List.mem_cons_of_mem u h2)
    · rcases List.mem_cons.mp hb with h1 | h1
      · exact Or.inl h1
      · exact Or.inr h1

theorem sorted_insertByPriority (s : SysRec) (l : List SysRec)
    (h : l.Sorted (fun a b => a.priority ≤ b.priority)) :
    (insertByPriority s l).Sorted (fun a b => a.priority ≤ b.priority) := by
  induction l with
  | nil => simp [insertByPriority]
  | cons t ts ih =>
    rw [List.sorted_cons] at h
    simp only [insertByPriority]
    split
    · next ht =>
      have hs := ih h.2
      rw [List.sorted_cons]
      refine ⟨?_, hs⟩
      intro b hb
      rcases mem_insertByPriority b s ts hb with h1 | h1
      · exact h1 ▸ le_of_lt ht
      · exact h.1 b h1
    · next ht =>
      rw [List.sorted_cons]
      exact ⟨by
        intro b hb
        rcases List.mem_cons.mp hb with h1 | h1
        · exact h1 ▸ le_of_not_lt ht
        · exact le_trans (le_of_not_lt ht) (h.1 b h1), List.sorted_cons.mpr h⟩

theorem sorted_sortByPriority (l : List SysRec) :
    (sortByPriority l).Sorted (fun a b => a.priority ≤ b.priority) := by
  induction l with
  | nil => simp [sortByPriority]
  | cons s ss ih => exact sorted_insertByPriority s _ ih

theorem filter_insertByPriority (p : Int) (s : SysRec) (l : List SysRec) :
    (insertByPriority s l).filter (·.priority = p) =
      if s.priority = p then s :: l.filter (·.priority = p)
      else l.filter (·.priority = p) := by
  induction l with
  | nil => by_cases h : s.priority = p <;> simp [insertByPriority, h]
  | cons t ts ih =>
    simp only [insertByPriority]
    split
    · next ht =>
      by_cases hs : s.priority = p
      · have htp : ¬(t.priority = p) := by
          intro hc
          rw [hc, ← hs] at ht
          exact lt_irrefl _ ht
        simp [List.filter_cons, htp, ih, hs]
      · by_cases htp : t.priority = p
        · simp [List.filter_cons, htp, ih, hs]
        · simp [List.filter_cons, htp, ih, hs]
    · by_cases hs : s.priority = p
      · simp [List.filter_cons, hs]
      · simp [List.filter_cons, hs]

theorem filter_sortByPriority (p : Int) (l : List SysRec) :
    (sortByPriority l).filter (·.priority = p) = l.filter (·.priority = p) := by
  induction l with
  | nil => rfl
  | cons s ss ih =>
    simp only [sortByPriority]
    rw [filter_insertByPriority]
    by_cases hs : s.priority = p
    · simp [List.filter_cons, hs, ih]
    · simp [List.filter_cons, hs, ih]

theorem perm_insertByPriority (s : SysRec) (l : List SysRec) :
    (insertByPriority s l).Perm (s :: l) := by
  induction l with
  | nil => simp [insertByPriority]
  | cons t ts ih =>
    simp only [insertByPriority]
    split
    · exact ((ih.cons t).trans (List.Perm.swap s t ts)).symm.symm
    · exact List.Perm.refl _

theorem perm_sortByPriority (l : List SysRec) : (sortByPriority l).Perm l := by
  induction l with
  | nil => rfl
  | cons s ss ih => exact (perm_insertByPriority s _).trans (ih.cons s)

/-- C6: for every registration sequence, the scene's system list after
folding `Scene.add_system` over it is a permutation of the registered
systems, sorted by ascending priority, with equal-priority systems in
registration order (the filter at each priority is unchanged); and
`Scene.update` invokes `update(dt)` exactly on the enabled systems of
that list, in list order, skipping disabled ones. -/
theorem scene_system_priority_order (regs : List SysRec) (dt : ℚ) :
    (regs.foldl Scene.add_system []).Perm regs ∧
    (regs.foldl Scene.add_system []).Sorted (fun a b => a.priority ≤ b.priority) ∧
    (∀ p : Int, (regs.foldl Scene.add_system []).filter (·.priority = p) =
      regs.filter (·.priority = p)) ∧
    Scene.update_systems dt (regs.foldl Scene.add_system []) =
      ((regs.foldl Scene.add_system []).filter (·.enabled)).map (fun s => (s.tag, dt)) := by
  have key : ∀ (acc : List SysRec) (rs : List SysRec),
      (rs.foldl Scene.add_system acc).Perm (acc ++ rs) ∧
      (∀ p : Int, (rs.foldl Scene.add_system acc).filter (·.priority = p) =
        (acc ++ rs).filter (·.priority = p)) := by
    intro acc rs
    induction rs generalizing acc with
    | nil => simp
    | cons r rs ih =>
      obtain ⟨hperm, hfil⟩ := ih (Scene.add_system acc r)
      constructor
      · have p2 : (Scene.add_system acc r ++ rs).Perm ((acc ++ [r]) ++ rs) :=
          (perm_sortByPriority (acc ++ [r])).append_right rs
        have heq : (acc ++ [r]) ++ rs = acc ++ r :: rs := by simp
        rw [List.foldl_cons]
        exact hperm.trans (heq ▸ p2)
      · intro p
        have h1 := hfil p
        rw [List.foldl_cons, h1]
        unfold Scene.add_system
        rw [List.filter_append, filter_sortByPriority, List.filter_append,
          List.filter_append]
        by_cases hr : r.priority = p <;> simp [List.filter_cons, hr]
  have sorted : ∀ (rs : List SysRec) (acc : List SysRec),
      (rs.foldl Scene.add_system acc).Sorted (fun a b => a.priority ≤ b.priority) ∨
      rs = [] ∧ acc = (rs.foldl Scene.add_system acc) := by
    intro rs
    induction rs with
    | nil => intro acc; exact Or.inr ⟨rfl, rfl⟩
    | cons r rs ih =>
      intro acc
      rcases ih (Scene.add_system acc r) with h | h
      · exact Or.inl h
      · left
        rw [List.foldl_cons, ← h.2]
        exact sorted_sortByPriority _
  obtain ⟨hperm, hfil⟩ := key [] regs
  refine ⟨by simpa using hperm, ?_, by simpa using hfil,
    update_systems_eq_filter dt _⟩
  rcases sorted regs [] with h | h
  · exact h
  · rw [← h.2]
    simp

/-! ## Entity / component / scene world
(src/engine/core/ecs/entity.py, component.py, src/engine/core/scene/scene.py)

Python objects live on a heap; the embedding keys entity and component
objects by allocation addresses (`World.nextAddr`, never reused) in
association lists.  `Entity.id` is a uuid generated at construction and
possibly overwritten during deserialization; it is embedded as a number
drawn from `World.nextIdent`.  The scene's `entities` dict is keyed by
`Entity.id` (the ident), while `root_entities` holds object references
(addresses).  Lifecycle hooks that only log are embedded as fire
counters on the component record. -/

structure CompRec where
  ctype : Nat
  enabled : Bool
  entity : Option Nat
  onAddFired : Nat
  onRemoveFired : Nat
  onEnableFired : Nat
  onDisableFired : Nat
  hasSerialize : Bool
  hasDeserialize : Bool
  payload : Nat
deriving Repr, DecidableEq

structure EntityRec where
  ident : Nat
  ename : String
  enabled : Bool
  components : List (Nat × Nat)
  parent : Option Nat
  children : List Nat
  inScene : Bool
  tags : List Nat
  layer : Int
deriving Repr, DecidableEq

structure SceneRec where
  sid : Nat
  scname : String
  entities : List (Nat × Nat)
  root_entities : List Nat
deriving Repr, DecidableEq

structure World where
  ents : List (Nat × EntityRec)
  comps : List (Nat × CompRec)
  scene : SceneRec
  nextAddr : Nat
  nextIdent : Nat
deriving Repr, DecidableEq

def getEnt (w : World) (e : Nat) : Option EntityRec := lookupA e w.ents

def getComp (w : World) (c : Nat) : Option CompRec := lookupA c w.comps

def modEnt (w : World) (e : Nat) (f : EntityRec → EntityRec) : World :=
  { w with ents := modA e f w.ents }

def modComp (w : World) (c : Nat) (f : CompRec → CompRec) : World :=
  { w with comps := modA c f w.comps }

/-- `Component.enable` (component.py lines 39-43): set the flag and fire
`on_enable` only when the component was disabled. -/
def Component.enable (w : World) (c : Nat) : World :=
  modComp w c (fun k =>
    if k.enabled then k
    else { k with enabled := true, onEnableFired := k.onEnableFired + 1 })

/-- `Component.disable` (component.py lines 45-49). -/
def Component.disable (w : World) (c : Nat) : World :=
  modComp w c (fun k =>
    if k.enabled then { k with enabled := false, onDisableFired := k.onDisableFired + 1 }
    else k)

/-- `Component.is_enabled` (component.py lines 51-58):
`self.enabled and (self.entity is None or self.entity.is_enabled())`,
where `Entity.is_enabled` returns the entity's own flag.  A dangling
address (never produced by the source, which holds live references)
counts as disabled. -/
def Component.is_enabled (w : World) (c : Nat) : Bool :=
  match getComp w c with
  | none => false
  | some cr =>
    cr.enabled && (match cr.entity with
      | none => true
      | some e =>
        match getEnt w e with
        | some r => r.enabled
        | none => false)

/-- `Entity.add_component` (entity.py lines 28-46): store the component
under its class in the map (overwriting in place), set its entity
back-reference, fire `on_add`. -/
def Entity.add_component (w : World) (e c : Nat) : World :=
  match getComp w c with
  | none => w
  | some cr =>
    let w1 := modEnt w e (fun r => { r with components := setA cr.ctype c r.components })
    let w2 := modComp w1 c (fun k => { k with entity := some e })
    modComp w2 c (fun k => { k with onAddFired := k.onAddFired + 1 })

/-- `Entity.remove_component` (entity.py lines 48-69): when a component
of that type is present, fire `on_remove`, clear its entity
back-reference, delete the map entry, return `true`. -/
def Entity.remove_component (w : World) (e t : Nat) : World × Bool :=
  match getEnt w e with
  | none => (w, false)
  | some r =>
    match lookupA t r.components with
    | none => (w, false)
    | some c =>
      let w1 := modComp w c (fun k => { k with onRemoveFired := k.onRemoveFired + 1 })
      let w2 := modComp w1 c (fun k => { k with entity := none })
      (modEnt w2 e (fun r => { r with components := delA t r.components }), true)

/-- `Entity.enable` (entity.py lines 235-242): set the entity flag, then
forward `enable()` to every owned component. -/
def Entity.enable (w : World) (e : Nat) : World :=
  match getEnt w e with
  | none => w
  | some r =>
    let w1 := modEnt w e (fun k => { k with enabled := true })
    r.components.foldl (fun acc p => Component.enable acc p.2) w1

/-- `Entity.disable` (entity.py lines 244-251). -/
def Entity.disable (w : World) (e : Nat) : World :=
  match getEnt w e with
  | none => w
  | some r =>
    let w1 := modEnt w e (fun k => { k with enabled := false })
    r.components.foldl (fun acc p => Component.disable acc p.2) w1

/-- `Entity.remove_child` (entity.py lines 122-137): when `b` is among
`a`'s children, null `b`'s parent and remove the first occurrence of `b`
from the child list. -/
def Entity.remove_child (w : World) (a b : Nat) : World × Bool :=
  match getEnt w a with
  | none => (w, false)
  | some ra =>
    if b ∈ ra.children then
      let w1 := modEnt w b (fun r => { r with parent := none })
      (modEnt w1 a (fun r => { r with children := r.children.erase b }), true)
    else (w, false)

/-- `Entity.add_child` (entity.py lines 104-120): detach `b` from any
prior parent, set `b.parent` to `a`, append `b` to `a`'s children.  Note
the scene's `root_entities` list is NOT consulted here. -/
def Entity.add_child (w : World) (a b : Nat) : World :=
  let w1 :=
    match getEnt w b with
    | some rb =>
      match rb.parent with
      | some p => (Entity.remove_child w p b).1
      | none => w
    | none => w
  let w2 := modEnt w1 b (fun r => { r with parent := some a })
  modEnt w2 a (fun r => { r with children := r.children ++ [b] })

/-- `Scene.add_entity` (scene.py lines 44-61): register under
`entity.id`, set the scene back-reference, and append to
`root_entities` when the entity has no parent. -/
def Scene.add_entity (w : World) (e : Nat) : World :=
  match getEnt w e with
  | none => w
  | some r =>
    let w1 := { w with scene := { w.scene with entities := setA r.ident e w.scene.entities } }
    let w2 := modEnt w1 e (fun k => { k with inScene := true })
    if r.parent = none then
      { w2 with scene := { w2.scene with root_entities := w2.scene.root_entities ++ [e] } }
    else w2

/-- `Scene.remove_entity` (scene.py lines 63-84): when `entity.id` is a
registered key, drop the object from `root_entities` if present, delete
the dict entry for that id, and clear the scene back-reference. -/
def Scene.remove_entity (w : World) (e : Nat) : World × Bool :=
  match getEnt w e with
  | none => (w, false)
  | some r =>
    if (lookupA r.ident w.scene.entities).isSome then
      let w1 := { w with scene := { w.scene with root_entities :=
        if e ∈ w.scene.root_entities then w.scene.root_entities.erase e
        else w.scene.root_entities } }
      let w2 := { w1 with scene := { w1.scene with entities := delA r.ident w1.scene.entities } }
      (modEnt w2 e (fun k => { k with inScene := false }), true)
    else (w, false)

/-- `Entity.__init__` (entity.py lines 11-26): a fresh entity object
with a fresh uuid, enabled, no components, no parent, no children, no
scene, no tags, layer 0. -/
def newEntity (w : World) (name : String) : World × Nat :=
  let a := w.nextAddr
  ({ w with
      ents := w.ents ++ [(a, ⟨w.nextIdent, name, true, [], none, [], false, [], 0⟩)],
      nextAddr := a + 1, nextIdent := w.nextIdent + 1 }, a)

/-- `Scene.create_entity` (scene.py lines 30-42). -/
def Scene.create_entity (w : World) (name : String) : World × Nat :=
  let p := newEntity w name
  (Scene.add_entity p.1 p.2, p.2)

/-- Construction of a component instance of a given class (`cls()`):
enabled, detached, hooks unfired. -/
def newComponent (w : World) (ctype : Nat) (hasSer hasDeser : Bool) (payload : Nat) :
    World × Nat :=
  let a := w.nextAddr
  ({ w with
      comps := w.comps ++ [(a, ⟨ctype, true, none, 0, 0, 0, 0, hasSer, hasDeser, payload⟩)],
      nextAddr := a + 1 }, a)

/-- `Entity.destroy` (entity.py lines 262-278): destroy a copy of the
child list recursively, remove every component by key snapshot, detach
from the parent, then ask the owning scene (when set) to drop the
entity.  The recursion of the source runs on the object graph; the fuel
bounds its depth and the claims supply enough of it. -/
def Entity.destroy : Nat → World → Nat → World
  | 0, w, _ => w
  | fuel + 1, w, e =>
    let cs := match getEnt w e with | some r => r.children | none => []
    let w1 := cs.foldl (fun acc c => Entity.destroy fuel acc c) w
    let ts := match getEnt w1 e with | some r => keysA r.components | none => []
    let w2 := ts.foldl (fun acc t => (Entity.remove_component acc e t).1) w1
    let w3 :=
      match getEnt w2 e with
      | some r =>
        match r.parent with
        | some p => (Entity.remove_child w2 p e).1
        | none => w2
      | none => w2
    match getEnt w3 e with
    | some r => if r.inScene then (Scene.remove_entity w3 e).1 else w3
    | none => w3

/-- `Scene.clear` (scene.py lines 234-242): destroy every entity of the
registry snapshot, then empty the registry and the root list. -/
def Scene.clear (fuel : Nat) (w : World) : World :=
  let es := w.scene.entities.map Prod.snd
  let w1 := es.foldl (fun acc e => Entity.destroy fuel acc e) w
  { w1 with scene := { w1.scene with entities := [], root_entities := [] } }

/-! ## Scene serialization (scene.py lines 244-418)

The persisted document is the tree of §4.2/§6 of the spec: per entity
`{id, name, enabled, tags, layer, components: [{type, data}], children}`.
Component `type` is the class name (`component.__class__.__name__`),
embedded as the numeric class key; `data` is whatever `serialize()`
returned, embedded as an opaque number.  `_get_component_class` resolves
a class name against importable modules; it is embedded as a lookup in a
class registry passed to `Scene.load`. -/

inductive ENode where
  | mk (ident : Nat) (ename : String) (enabled : Bool) (tags : List Nat) (layer : Int)
       (comps : List (Nat × Nat)) (children : List ENode)

structure SceneDoc where
  sid : Nat
  scname : String
  entities : List ENode

/-- `Scene._serialize_entity` (scene.py lines 318-351): record the
entity fields, the `{type, data}` pair of every component that has a
`serialize` hook (others are silently skipped), and the serialized
children. -/
def Scene.serialize_entity : Nat → World → Nat → ENode
  | 0, _, _ => .mk 0 "" true [] 0 [] []
  | fuel + 1, w, e =>
    match getEnt w e with
    | none => .mk 0 "" true [] 0 [] []
    | some r =>
      .mk r.ident r.ename r.enabled r.tags r.layer
        (r.components.filterMap (fun p =>
          match getComp w p.2 with
          | some cr => if cr.hasSerialize then some (cr.ctype, cr.payload) else none
          | none => none))
        (r.children.map (Scene.serialize_entity fuel w))

/-- `Scene.save` (scene.py lines 244-280): the document holds the scene
id, name, and the serialization of every entity in `root_entities`. -/
def Scene.save (fuel : Nat) (w : World) : SceneDoc :=
  ⟨w.scene.sid, w.scene.scname, w.scene.root_entities.map (Scene.serialize_entity fuel w)⟩

/-- A constructible component class as `_get_component_class` can
resolve one: its name and whether instances carry the optional
`serialize` / `deserialize` hooks. -/
structure CompClass where
  cname : Nat
  hasSerialize : Bool
  hasDeserialize : Bool
deriving Repr, DecidableEq

/-- `Scene._get_component_class` (scene.py lines 396-418): resolve a
class name, or fail (`None`) with a diagnostic. -/
def resolveClass (registry : List CompClass) (n : Nat) : Option CompClass :=
  registry.find? (fun c => c.cname = n)

/-- `Scene._deserialize_entity` (scene.py lines 353-394): construct a
fresh `Entity(name)`, overwrite its id and fields from the node,
register it with `add_entity` (before parenting!), parent it via
`add_child` when a parent is given, instantiate and attach every
resolvable component (calling `deserialize(data)` when that hook
exists, unresolvable entries skipped), then recurse into the children. -/
def Scene.deserialize_entity (registry : List CompClass) :
    Nat → World → ENode → Option Nat → World
  | 0, w, _, _ => w
  | fuel + 1, w, .mk ident name enabled tags layer comps children, parent =>
    let p := newEntity w name
    let e := p.2
    let w2 := modEnt p.1 e (fun r =>
      { r with ident := ident, enabled := enabled, tags := tags, layer := layer })
    let w3 := Scene.add_entity w2 e
    let w4 :=
      match parent with
      | some par => Entity.add_child w3 par e
      | none => w3
    let w5 := comps.foldl (fun acc tc =>
      match resolveClass registry tc.1 with
      | none => acc
      | some cls =>
        let q := newComponent acc cls.cname cls.hasSerialize cls.hasDeserialize 0
        let a2 := Entity.add_component q.1 e q.2
        if cls.hasDeserialize then modComp a2 q.2 (fun k => { k with payload := tc.2 })
        else a2) w4
    children.foldl (fun acc ch => Scene.deserialize_entity registry fuel acc ch (some e)) w5

/-- `Scene.load` (scene.py lines 282-316): clear the current scene
FIRST, then read and parse the document; a parse exception is caught and
reported as `false`, leaving the already-cleared state; on success set
the scene id and name and deserialize every top-level node.  (The
`os.path.exists` early-out precedes all of this; the embedding covers
the path where the file exists and parsing may fail.) -/
def Scene.load (fuel : Nat) (registry : List CompClass) (w : World)
    (parsed : Except Unit SceneDoc) : World × Bool :=
  let w1 := Scene.clear fuel w
  match parsed with
  | .error _ => (w1, false)
  | .ok doc =>
    let w2 := { w1 with scene := { w1.scene with sid := doc.sid, scname := doc.scname } }
    (doc.entities.foldl (fun acc nd => Scene.deserialize_entity registry fuel acc nd none) w2,
     true)

/-! ## Concrete scenarios -/

/-- A world with one empty scene. -/
def emptyWorld : World := ⟨[], [], ⟨0, "S", [], []⟩, 0, 0⟩

/-- The end-to-end scenario of spec §8: `create_entity("Player")` (address
and id 0), `create_entity("Enemy")` (address and id 1), then
`Player.add_child(Enemy)`. -/
def playerEnemyWorld : World :=
  let p := Scene.create_entity emptyWorld "Player"
  let q := Scene.create_entity p.1 "Enemy"
  Entity.add_child q.1 p.2 q.2

/-- C1: the root-entity invariant does not survive `Entity.add_child`.
After `create_entity("Player")`, `create_entity("Enemy")`,
`Player.add_child(Enemy)`, the Enemy entity is registered in the scene's
entity map with parent Player, yet it is still in `root_entities` —
`add_child` never removes the child from the scene's root list, so the
list is not "exactly those entities whose parent is null". -/
theorem root_invariant_broken_by_add_child :
    playerEnemyWorld.scene.root_entities = [0, 1] ∧
    lookupA 1 playerEnemyWorld.scene.entities = some 1 ∧
    (getEnt playerEnemyWorld 1).map EntityRec.parent = some (some 0) := by
  refine ⟨by decide, by decide, by decide⟩

/-- C2: `Scene.load` clears the scene before parsing, so a load whose
parse raises reports failure with the scene's entity map EMPTY — not the
map from before the call, which held two entities. -/
theorem load_failure_leaves_cleared_state :
    (Scene.load 4 [] playerEnemyWorld (Except.error ())).2 = false ∧
    (Scene.load 4 [] playerEnemyWorld (Except.error ())).1.scene.entities = [] ∧
    playerEnemyWorld.scene.entities = [(0, 0), (1, 1)] := by
  refine ⟨by decide, by decide, by decide⟩

/-- The player/enemy scene after `Scene.save` into a document and
`Scene.load` of that same document. -/
def playerEnemyReloaded : World :=
  (Scene.load 4 [] playerEnemyWorld (Except.ok (Scene.save 3 playerEnemyWorld))).1

/-- C3: save followed by load of the same document does not reproduce
the parent/child structure.  Before: the entity registered under id 1
(Enemy) has as parent the entity with id 0 (Player).  After the round
trip: the entity registered under id 1 has no parent — the stale root
list (C1) made `save` serialize Enemy twice, once inside Player's
subtree and once as a root, and on load the second, parentless copy
overwrites the id-1 registry entry. -/
theorem save_load_roundtrip_breaks_parent_link :
    (Scene.load 4 [] playerEnemyWorld (Except.ok (Scene.save 3 playerEnemyWorld))).2 = true ∧
    ((lookupA 1 playerEnemyWorld.scene.entities).bind
      (getEnt playerEnemyWorld)).map EntityRec.parent = some (some 0) ∧
    (getEnt playerEnemyWorld 0).map EntityRec.ident = some 0 ∧
    ((lookupA 1 playerEnemyReloaded.scene.entities).bind
      (getEnt playerEnemyReloaded)).map EntityRec.parent = some none := by
  refine ⟨by decide, by decide, by decide, by decide⟩

/-! ## C7: effective-enabled -/

/-- The effective-enabled predicate exactly as the claim states it: own
flag set AND the owning entity exists (back-reference non-null) AND that
entity is enabled. -/
def specEffectiveEnabled (w : World) (c : Nat) : Prop :=
  ∃ cr, getComp w c = some cr ∧ cr.enabled = true ∧
    ∃ e r, cr.entity = some e ∧ getEnt w e = some r ∧ r.enabled = true

/-- A world containing a single detached, enabled component (address 0). -/
def detachedCompWorld : World :=
  ⟨[], [(0, ⟨0, true, none, 0, 0, 0, 0, false, false, 0⟩)], ⟨0, "S", [], []⟩, 1, 0⟩

/-- C7 counterexample: a detached component with its own flag set IS
reported enabled by `Component.is_enabled` (the source treats a null
entity as "no gate"), contradicting the claim that effective-enabled
requires the owning entity to exist. -/
theorem is_enabled_detached_counterexample :
    Component.is_enabled detachedCompWorld 0 = true ∧
    ¬ specEffectiveEnabled detachedCompWorld 0 := by
  constructor
  · rfl
  · rintro ⟨cr, hcr, -, e, r, hent, -⟩
    have hc : cr = ⟨0, true, none, 0, 0, 0, 0, false, false, 0⟩ :=
      (by simpa [getComp, detachedCompWorld, lookupA] using hcr :
        (⟨0, true, none, 0, 0, 0, 0, false, false, 0⟩ : CompRec) = cr).symm
    rw [hc] at hent
    exact Option.noConfusion hent

/-- C7 amended: a component is effectively enabled iff its own flag is
set AND (it is detached — entity back-reference null — OR its owning
entity is enabled); in particular a detached component with its flag set
is effectively enabled. -/
theorem component_is_enabled_iff (w : World) (c : Nat) (cr : CompRec)
    (h : getComp w c = some cr) :
    Component.is_enabled w c = true ↔
      cr.enabled = true ∧
        (cr.entity = none ∨
          ∃ e r, cr.entity = some e ∧ getEnt w e = some r ∧ r.enabled = true) := by
  unfold Component.is_enabled
  rw [h]
  cases hen : cr.entity with
  | none => simp [hen]
  | some e =>
    cases hg : getEnt w e with
    | none => simp [hen, hg, Bool.and_eq_true]
    | some r => simp [hen, hg, Bool.and_eq_true]

/-- A world with one enabled entity (address 0) owning one enabled
component (address 1, class 5). -/
def attachedCompWorld : World :=
  ⟨[(0, ⟨0, "E", true, [(5, 1)], none, [], false, [], 0⟩)],
   [(1, ⟨5, true, some 0, 0, 0, 0, 0, false, false, 0⟩)], ⟨0, "S", [], []⟩, 2, 1⟩

/-- Witness for the amended C7 at a concrete component. -/
theorem component_is_enabled_iff_witness :
    Component.is_enabled attachedCompWorld 1 = true ↔
      (⟨5, true, some 0, 0, 0, 0, 0, false, false, 0⟩ : CompRec).enabled = true ∧
        ((⟨5, true, some 0, 0, 0, 0, 0, false, false, 0⟩ : CompRec).entity = none ∨
          ∃ e r, (⟨5, true, some 0, 0, 0, 0, 0, false, false, 0⟩ : CompRec).entity = some e ∧
            getEnt attachedCompWorld e = some r ∧ r.enabled = true) :=
  component_is_enabled_iff attachedCompWorld 1 _ rfl

/-! ## Frame lemmas for the world modifiers -/

@[simp] theorem getComp_modEnt (w : World) (e c : Nat) (f : EntityRec → EntityRec) :
    getComp (modEnt w e f) c = getComp w c := rfl

@[simp] theorem getEnt_modComp (w : World) (c e : Nat) (f : CompRec → CompRec) :
    getEnt (modComp w c f) e = getEnt w e := rfl

@[simp] theorem scene_modEnt (w : World) (e : Nat) (f : EntityRec → EntityRec) :
    (modEnt w e f).scene = w.scene := rfl

@[simp] theorem scene_modComp (w : World) (c : Nat) (f : CompRec → CompRec) :
    (modComp w c f).scene = w.scene := rfl

theorem getComp_modComp_ne (w : World) (c c' : Nat) (f : CompRec → CompRec)
    (h : c' ≠ c) : getComp (modComp w c' f) c = getComp w c :=
  lookupA_modA_ne c c' f w.comps h

theorem getComp_modComp_eq (w : World) (c : Nat) (f : CompRec → CompRec) :
    getComp (modComp w c f) c = (getComp w c).map f :=
  lookupA_modA_eq c f w.comps

theorem getEnt_modEnt_ne (w : World) (e e' : Nat) (f : EntityRec → EntityRec)
    (h : e' ≠ e) : getEnt (modEnt w e' f) e = getEnt w e :=
  lookupA_modA_ne e e' f w.ents h

theorem getEnt_modEnt_eq (w : World) (e : Nat) (f : EntityRec → EntityRec) :
    getEnt (modEnt w e f) e = (getEnt w e).map f :=
  lookupA_modA_eq e f w.ents

/-! ## C9: add_component with an existing component of the same class -/

/-- C9: when entity `e` already holds `oldc` under class key `t` and a
distinct instance `newc` of the same class is added,
`Entity.add_component` replaces the map entry in place: afterwards the
old component's record is untouched (`on_remove` unfired and its entity
back-reference still `e`), the map holds `newc` under `t`, and `oldc` is
no longer a value of the map. -/
theorem add_component_same_type_replaces
    (w : World) (e t oldc newc : Nat) (r : EntityRec) (ocr ncr : CompRec)
    (hr : getEnt w e = some r)
    (hold : lookupA t r.components = some oldc)
    (hocr : getComp w oldc = some ocr)
    (hoe : ocr.entity = some e)
    (hncr : getComp w newc = some ncr)
    (hct : ncr.ctype = t)
    (hne : newc ≠ oldc)
    (hnd : (keysA r.components).Nodup)
    (honly : ∀ p ∈ r.components, p.2 = oldc → p.1 = t) :
    getComp (Entity.add_component w e newc) oldc = some ocr ∧
    ocr.entity = some e ∧
    ∃ r', getEnt (Entity.add_component w e newc) e = some r' ∧
      lookupA t r'.components = some newc ∧
      ∀ p ∈ r'.components, p.2 ≠ oldc := by
  have key : Entity.add_component w e newc =
      modComp (modComp
        (modEnt w e (fun k => { k with components := setA ncr.ctype newc k.components }))
        newc (fun k => { k with entity := some e }))
        newc (fun k => { k with onAddFired := k.onAddFired + 1 }) := by
    unfold Entity.add_component
    rw [hncr]
  rw [key]
  refine ⟨?_, hoe, ?_⟩
  · rw [getComp_modComp_ne _ _ _ _ hne, getComp_modComp_ne _ _ _ _ hne,
      getComp_modEnt]
    exact hocr
  · refine ⟨{ r with components := setA t newc r.components }, ?_, ?_, ?_⟩
    · rw [getEnt_modComp, getEnt_modComp, getEnt_modEnt_eq, hr]
      simp [hct]
    · exact lookupA_setA_eq t newc r.components
    · intro p hp
      rcases mem_setA_of_nodup t newc r.components p hnd hp with h1 | h1
      · rw [h1]
        exact hne
      · intro hc
        exact h1.2 (honly p h1.1 hc)

/-- A world where entity 0 holds component 10 (class 5, attached, with
`on_add` fired once) and a fresh detached component 11 of the same
class 5 exists. -/
def c9world : World :=
  ⟨[(0, ⟨0, "E", true, [(5, 10)], none, [], true, [], 0⟩)],
   [(10, ⟨5, true, some 0, 1, 0, 0, 0, false, false, 0⟩),
    (11, ⟨5, true, none, 0, 0, 0, 0, false, false, 0⟩)],
   ⟨0, "S", [(0, 0)], [0]⟩, 12, 1⟩

/-- Witness for C9 at a concrete world. -/
theorem add_component_same_type_replaces_witness :
    getComp (Entity.add_component c9world 0 11) 10 =
      some ⟨5, true, some 0, 1, 0, 0, 0, false, false, 0⟩ ∧
    (⟨5, true, some 0, 1, 0, 0, 0, false, false, 0⟩ : CompRec).entity = some 0 ∧
    ∃ r', getEnt (Entity.add_component c9world 0 11) 0 = some r' ∧
      lookupA 5 r'.components = some 11 ∧
      ∀ p ∈ r'.components, p.2 ≠ 10 :=
  add_component_same_type_replaces c9world 0 5 10 11 _ _ _
    rfl rfl rfl rfl rfl rfl (by decide) (by decide) (by decide)

/-! ## C10: entity disable / enable resets component flags -/

theorem getEnt_foldl_compEnable (L : List (Nat × Nat)) (w : World) (e : Nat) :
    getEnt (L.foldl (fun acc p => Component.enable acc p.2) w) e = getEnt w e := by
  induction L generalizing w with
  | nil => rfl
  | cons p ps ih => rw [List.foldl_cons, ih]; rfl

theorem getEnt_foldl_compDisable (L : List (Nat × Nat)) (w : World) (e : Nat) :
    getEnt (L.foldl (fun acc p => Component.disable acc p.2) w) e = getEnt w e := by
  induction L generalizing w with
  | nil => rfl
  | cons p ps ih => rw [List.foldl_cons, ih]; rfl

theorem getComp_foldl_compEnable_frame :
    ∀ (L : List (Nat × Nat)) (w : World) (c : Nat), c ∉ L.map Prod.snd →
      getComp (L.foldl (fun acc p => Component.enable acc p.2) w) c = getComp w c
  | [], _, _, _ => rfl
  | p :: ps, w, c, h => by
    simp only [List.map_cons, List.mem_cons, not_or] at h
    rw [List.foldl_cons, getComp_foldl_compEnable_frame ps _ c h.2]
    exact getComp_modComp_ne _ _ _ _ (fun hc => h.1 hc.symm)

theorem foldl_compEnable_enabled :
    ∀ (L : List (Nat × Nat)) (w : World) (c : Nat), c ∈ L.map Prod.snd → ∀ cr : CompRec,
      getComp (L.foldl (fun acc p => Component.enable acc p.2) w) c = some cr →
        cr.enabled = true
  | [], _, _, hc, _, _ => by simp at hc
  | p :: ps, w, c, hc, cr, h => by
    rw [List.foldl_cons] at h
    by_cases h2 : c ∈ ps.map Prod.snd
    · exact foldl_compEnable_enabled ps _ c h2 cr h
    · simp only [List.map_cons, List.mem_cons] at hc
      have hcp : c = p.2 := hc.resolve_right h2
      rw [getComp_foldl_compEnable_frame ps _ c h2, ← hcp] at h
      rw [show Component.enable w c = modComp w c (fun k =>
        if k.enabled then k
        else { k with enabled := true, onEnableFired := k.onEnableFired + 1 }) from rfl,
        getComp_modComp_eq] at h
      cases hg : getComp w c with
      | none => rw [hg] at h; exact Option.noConfusion h
      | some k =>
        rw [hg] at h
        simp only [Option.map_some'] at h
        by_cases hk : k.enabled
        · rw [if_pos hk] at h
          cases h
          exact hk
        · rw [if_neg hk] at h
          cases h
          rfl

/-- C10: after `E.disable()` followed by `E.enable()`, the entity's flag
is set and every component `E` owns has `enabled = true` — `enable`
forwards to every owned component unconditionally, so a component that
was individually disabled before the cycle comes back enabled. -/
theorem entity_disable_enable_resets_components (w : World) (e : Nat) (r : EntityRec)
    (hr : getEnt (Entity.enable (Entity.disable w e) e) e = some r) :
    r.enabled = true ∧
    ∀ p ∈ r.components, ∀ cr,
      getComp (Entity.enable (Entity.disable w e) e) p.2 = some cr →
        cr.enabled = true := by
  cases h0 : getEnt w e with
  | none =>
    have hD : Entity.disable w e = w := by
      unfold Entity.disable
      rw [h0]
    have hE : Entity.enable (Entity.disable w e) e = w := by
      unfold Entity.enable
      rw [hD, h0]
    rw [hE, h0] at hr
    exact Option.noConfusion hr
  | some r0 =>
    have hD : Entity.disable w e =
        r0.components.foldl (fun acc p => Component.disable acc p.2)
          (modEnt w e (fun k => { k with enabled := false })) := by
      unfold Entity.disable
      rw [h0]
    have hDent : getEnt (Entity.disable w e) e = some { r0 with enabled := false } := by
      rw [hD, getEnt_foldl_compDisable, getEnt_modEnt_eq, h0]
      rfl
    have hE : Entity.enable (Entity.disable w e) e =
        ({ r0 with enabled := false } : EntityRec).components.foldl
          (fun acc p => Component.enable acc p.2)
          (modEnt (Entity.disable w e) e (fun k => { k with enabled := true })) := by
      unfold Entity.enable
      rw [hDent]
    have hEent : getEnt (Entity.enable (Entity.disable w e) e) e =
        some { r0 with enabled := true } := by
      rw [hE, getEnt_foldl_compEnable, getEnt_modEnt_eq, hDent]
      rfl
    rw [hEent] at hr
    cases hr
    refine ⟨rfl, ?_⟩
    intro p hp cr hcr
    rw [hE] at hcr
    exact foldl_compEnable_enabled _ _ _ (List.mem_map.mpr ⟨p, hp, rfl⟩) cr hcr

/-- A world where entity 0 owns component 10 (class 1, enabled) and
component 11 (class 2, individually disabled). -/
def c10world : World :=
  ⟨[(0, ⟨0, "E", true, [(1, 10), (2, 11)], none, [], true, [], 0⟩)],
   [(10, ⟨1, true, some 0, 0, 0, 0, 0, false, false, 0⟩),
    (11, ⟨2, false, some 0, 0, 0, 0, 0, false, false, 0⟩)],
   ⟨0, "S", [(0, 0)], [0]⟩, 12, 1⟩

/-- Witness for C10 at a concrete world with an individually disabled
component. -/
theorem entity_disable_enable_resets_components_witness :
    (⟨0, "E", true, [(1, 10), (2, 11)], none, [], true, [], 0⟩ : EntityRec).enabled = true ∧
    ∀ p ∈ (⟨0, "E", true, [(1, 10), (2, 11)], none, [], true, [], 0⟩ : EntityRec).components,
      ∀ cr, getComp (Entity.enable (Entity.disable c10world 0) 0) p.2 = some cr →
        cr.enabled = true :=
  entity_disable_enable_resets_components c10world 0 _ (by decide)

/-! ## C5: the destruction cascade

`Entity.destroy` recurses over the object graph.  To state its
specification for every well-formed hierarchy, an `ETree` records the
shape of an entity's subtree in a world: the entity's address, its id,
its component map, and the trees of its children.  `TreeWF` says the
world really contains that subtree: each node's record matches, each
node is registered in the scene under its id, and each child's parent
back-reference points at its tree parent. -/

inductive ETree where
  | node (addr : Nat) (ident : Nat) (cs : List (Nat × Nat)) (kids : List ETree)

def ETree.rootAddr : ETree → Nat
  | .node a _ _ _ => a

def ETree.rootIdent : ETree → Nat
  | .node _ i _ _ => i

def ETree.rootCs : ETree → List (Nat × Nat)
  | .node _ _ cs _ => cs

def treeEnts : ETree → List Nat
  | .node a _ _ kids => a :: (kids.attach.map (fun x => treeEnts x.1)).flatten
decreasing_by
  have := List.sizeOf_lt_of_mem x.2
  simp only [ETree.node.sizeOf_spec]
  omega

def treeComps : ETree → List Nat
  | .node _ _ cs kids =>
      cs.map Prod.snd ++ (kids.attach.map (fun x => treeComps x.1)).flatten
decreasing_by
  have := List.sizeOf_lt_of_mem x.2
  simp only [ETree.node.sizeOf_spec]
  omega

def treeIdents : ETree → List Nat
  | .node _ i _ kids => i :: (kids.attach.map (fun x => treeIdents x.1)).flatten
decreasing_by
  have := List.sizeOf_lt_of_mem x.2
  simp only [ETree.node.sizeOf_spec]
  omega

def treeHeight : ETree → Nat
  | .node _ _ _ kids => 1 + (kids.attach.map (fun x => treeHeight x.1)).foldl max 0
decreasing_by
  have := List.sizeOf_lt_of_mem x.2
  simp only [ETree.node.sizeOf_spec]
  omega

def entsOfList (ks : List ETree) : List Nat := (ks.map treeEnts).flatten

def compsOfList (ks : List ETree) : List Nat := (ks.map treeComps).flatten

def identsOfList (ks : List ETree) : List Nat := (ks.map treeIdents).flatten

theorem treeEnts_node (a i : Nat) (cs : List (Nat × Nat)) (kids : List ETree) :
    treeEnts (.node a i cs kids) = a :: entsOfList kids := by
  rw [treeEnts]
  unfold entsOfList
  congr 1
  rw [List.attach_map_coe]

theorem treeComps_node (a i : Nat) (cs : List (Nat × Nat)) (kids : List ETree) :
    treeComps (.node a i cs kids) = cs.map Prod.snd ++ compsOfList kids := by
  rw [treeComps]
  unfold compsOfList
  congr 1
  rw [List.attach_map_coe]

theorem treeIdents_node (a i : Nat) (cs : List (Nat × Nat)) (kids : List ETree) :
    treeIdents (.node a i cs kids) = i :: identsOfList kids := by
  rw [treeIdents]
  unfold identsOfList
  congr 1
  rw [List.attach_map_coe]

theorem treeHeight_node (a i : Nat) (cs : List (Nat × Nat)) (kids : List ETree) :
    treeHeight (.node a i cs kids) = 1 + (kids.map treeHeight).foldl max 0 := by
  rw [treeHeight]
  congr 2
  rw [List.attach_map_coe]

theorem foldl_max_init_le (l : List Nat) (n : Nat) : n ≤ l.foldl max n := by
  induction l generalizing n with
  | nil => exact le_refl n
  | cons x xs ih => exact le_trans (le_max_left n x) (ih (max n x))

theorem le_foldl_max (l : List Nat) (n : Nat) (x : Nat) (hx : x ∈ l) :
    x ≤ l.foldl max n := by
  induction l generalizing n with
  | nil => simp at hx
  | cons y ys ih =>
    rcases List.mem_cons.mp hx with h | h
    · subst h
      exact le_trans (le_max_right n x) (foldl_max_init_le ys _)
    · exact ih _ h

theorem treeHeight_pos (t : ETree) : 1 ≤ treeHeight t := by
  cases t with
  | node a i cs kids =>
    rw [treeHeight_node]
    omega

theorem kid_treeHeight_le (a i : Nat) (cs : List (Nat × Nat)) (kids : List ETree)
    (k : ETree) (hk : k ∈ kids) :
    treeHeight k + 1 ≤ treeHeight (.node a i cs kids) := by
  rw [treeHeight_node]
  have h2 := le_foldl_max (kids.map treeHeight) 0 _ (List.mem_map.mpr ⟨k, hk, rfl⟩)
  omega

theorem rootAddr_mem_treeEnts (t : ETree) : t.rootAddr ∈ treeEnts t := by
  cases t with
  | node a i cs kids =>
    rw [treeEnts_node]
    exact List.mem_cons_self _ _

theorem rootIdent_mem_treeIdents (t : ETree) : t.rootIdent ∈ treeIdents t := by
  cases t with
  | node a i cs kids =>
    rw [treeIdents_node]
    exact List.mem_cons_self _ _

theorem mem_entsOfList (ks : List ETree) (k : ETree) (hk : k ∈ ks) (b : Nat)
    (hb : b ∈ treeEnts k) : b ∈ entsOfList ks :=
  List.mem_flatten.mpr ⟨treeEnts k, List.mem_map.mpr ⟨k, hk, rfl⟩, hb⟩

theorem mem_compsOfList (ks : List ETree) (k : ETree) (hk : k ∈ ks) (c : Nat)
    (hc : c ∈ treeComps k) : c ∈ compsOfList ks :=
  List.mem_flatten.mpr ⟨treeComps k, List.mem_map.mpr ⟨k, hk, rfl⟩, hc⟩

theorem mem_identsOfList (ks : List ETree) (k : ETree) (hk : k ∈ ks) (c : Nat)
    (hc : c ∈ treeIdents k) : c ∈ identsOfList ks :=
  List.mem_flatten.mpr ⟨treeIdents k, List.mem_map.mpr ⟨k, hk, rfl⟩, hc⟩

/-- The world contains exactly the subtree described by the tree: the
root's record matches the node (ident, component map, children in
order, scene back-reference set), the root is registered in the scene's
entity dict under its id, the component dict keys are unique (a Python
dict invariant), every child's parent back-reference is the root, and
every child subtree is again well-formed. -/
inductive TreeWF (w : World) : ETree → Prop where
  | node (a i : Nat) (cs : List (Nat × Nat)) (kids : List ETree) (r : EntityRec)
      (hr : getEnt w a = some r) (hident : r.ident = i) (hcomps : r.components = cs)
      (hchildren : r.children = kids.map ETree.rootAddr) (hin : r.inScene = true)
      (hreg : lookupA i w.scene.entities = some a)
      (hkeys : (keysA cs).Nodup)
      (hpar : ∀ k ∈ kids, ∃ rk, getEnt w k.rootAddr = some rk ∧ rk.parent = some a)
      (hkids : ∀ k ∈ kids, TreeWF w k) :
      TreeWF w (.node a i cs kids)

theorem TreeWF_mono (w w' : World) : ∀ t, TreeWF w t →
    (∀ b ∈ treeEnts t, getEnt w' b = getEnt w b) →
    (∀ c ∈ treeComps t, getComp w' c = getComp w c) →
    (∀ k ∈ treeIdents t, lookupA k w'.scene.entities = lookupA k w.scene.entities) →
    TreeWF w' t := by
  intro t hwf
  induction hwf with
  | node a i cs kids r hr hident hcomps hchildren hin hreg hkeys hpar hkids ih =>
    intro hE hC hI
    refine TreeWF.node a i cs kids r ?_ hident hcomps hchildren hin ?_ hkeys ?_ ?_
    · rw [hE a (rootAddr_mem_treeEnts (.node a i cs kids))]
      exact hr
    · rw [hI i (rootIdent_mem_treeIdents (.node a i cs kids))]
      exact hreg
    · intro k hk
      obtain ⟨rk, h1, h2⟩ := hpar k hk
      refine ⟨rk, ?_, h2⟩
      rw [hE k.rootAddr (by
        rw [treeEnts_node]
        exact List.mem_cons_of_mem _
          (mem_entsOfList kids k hk _ (rootAddr_mem_treeEnts k)))]
      exact h1
    · intro k hk
      refine ih k hk ?_ ?_ ?_
      · intro b hb
        exact hE b (by
          rw [treeEnts_node]
          exact List.mem_cons_of_mem _ (mem_entsOfList kids k hk b hb))
      · intro c hc
        exact hC c (by
          rw [treeComps_node]
          exact List.mem_append_right _ (mem_compsOfList kids k hk c hc))
      · intro c hc
        exact hI c (by
          rw [treeIdents_node]
          exact List.mem_cons_of_mem _ (mem_identsOfList kids k hk c hc))

@[simp] theorem getEnt_set_scene (w : World) (s : SceneRec) (e : Nat) :
    getEnt { w with scene := s } e = getEnt w e := rfl

@[simp] theorem getComp_set_scene (w : World) (s : SceneRec) (c : Nat) :
    getComp { w with scene := s } c = getComp w c := rfl

/-- Effect of `Entity.remove_child` seen from a parent that exists and is
distinct from the child: the parent's child list loses the first
occurrence of the child (a no-op when the child was absent, `erase` of a
non-member), all other entity records, the component heap and the scene
are untouched. -/
theorem remove_child_spec (w : World) (a b : Nat) (ra : EntityRec)
    (h : getEnt w a = some ra) (hab : a ≠ b) :
    getEnt ((Entity.remove_child w a b).1) a =
      some { ra with children := ra.children.erase b } ∧
    (∀ x, x ≠ a → x ≠ b → getEnt ((Entity.remove_child w a b).1) x = getEnt w x) ∧
    ((Entity.remove_child w a b).1).comps = w.comps ∧
    ((Entity.remove_child w a b).1).scene = w.scene ∧
    (∀ rb, getEnt w b = some rb → ∃ rb',
      getEnt ((Entity.remove_child w a b).1) b = some rb' ∧
      rb'.ident = rb.ident ∧ rb'.inScene = rb.inScene ∧
      rb'.components = rb.components) := by
  have hsplit : Entity.remove_child w a b =
      (if b ∈ ra.children then
        (modEnt (modEnt w b (fun r => { r with parent := none })) a
          (fun r => { r with children := r.children.erase b }), true)
      else (w, false)) := by
    unfold Entity.remove_child
    rw [h]
  rw [hsplit]
  by_cases hm : b ∈ ra.children
  · rw [if_pos hm]
    refine ⟨?_, ?_, rfl, rfl, ?_⟩
    · show getEnt (modEnt (modEnt w b _) a _) a = _
      rw [getEnt_modEnt_eq, getEnt_modEnt_ne _ _ _ _ (Ne.symm hab), h]
      rfl
    · intro x hxa hxb
      show getEnt (modEnt (modEnt w b _) a _) x = _
      rw [getEnt_modEnt_ne _ _ _ _ (Ne.symm hxa), getEnt_modEnt_ne _ _ _ _ (Ne.symm hxb)]
    · intro rb hrb
      refine ⟨{ rb with parent := none }, ?_, rfl, rfl, rfl⟩
      show getEnt (modEnt (modEnt w b _) a _) b = _
      rw [getEnt_modEnt_ne _ _ _ _ hab, getEnt_modEnt_eq, hrb]
      rfl
  · rw [if_neg hm]
    refine ⟨?_, fun x _ _ => rfl, rfl, rfl, ?_⟩
    · show getEnt w a = some { ra with children := ra.children.erase b }
      rw [List.erase_of_not_mem hm, h]
    · intro rb hrb
      exact ⟨rb, hrb, rfl, rfl, rfl⟩

/-- Effect of `Scene.remove_entity` on a registered entity: the entity
dict loses the entry under the entity's id, other entity records and
the component heap are untouched. -/
theorem remove_entity_spec (w : World) (e : Nat) (r : EntityRec)
    (h : getEnt w e = some r) (hreg : (lookupA r.ident w.scene.entities).isSome = true) :
    ((Scene.remove_entity w e).1).scene.entities = delA r.ident w.scene.entities ∧
    (∀ x, x ≠ e → getEnt ((Scene.remove_entity w e).1) x = getEnt w x) ∧
    ((Scene.remove_entity w e).1).comps = w.comps := by
  unfold Scene.remove_entity
  rw [h]
  simp only [hreg, if_true]
  refine ⟨rfl, ?_, rfl⟩
  intro x hx
  rw [getEnt_modEnt_ne _ _ _ _ (Ne.symm hx), getEnt_set_scene, getEnt_set_scene]

/-- Effect of the component-stripping loop of `Entity.destroy`
(`for component_type in list(self.components.keys()):
remove_component(...)`): the entity's component map is emptied; each
component that was in the map fires `on_remove` exactly once and loses
its entity back-reference; every other component, entity record, and
the scene are untouched. -/
theorem remove_all_components_spec :
    ∀ (cs : List (Nat × Nat)) (w : World) (a : Nat) (r : EntityRec),
      getEnt w a = some r → r.components = cs → (keysA cs).Nodup →
      (cs.map Prod.snd).Nodup →
      getEnt ((keysA cs).foldl (fun acc t => (Entity.remove_component acc a t).1) w) a =
        some { r with components := [] } ∧
      (∀ b, b ≠ a →
        getEnt ((keysA cs).foldl (fun acc t => (Entity.remove_component acc a t).1) w) b =
          getEnt w b) ∧
      (∀ p ∈ cs, ∀ cr, getComp w p.2 = some cr →
        getComp ((keysA cs).foldl (fun acc t => (Entity.remove_component acc a t).1) w) p.2 =
          some { cr with entity := none, onRemoveFired := cr.onRemoveFired + 1 }) ∧
      (∀ c, c ∉ cs.map Prod.snd →
        getComp ((keysA cs).foldl (fun acc t => (Entity.remove_component acc a t).1) w) c =
          getComp w c) ∧
      ((keysA cs).foldl (fun acc t => (Entity.remove_component acc a t).1) w).scene = w.scene
  | [], w, a, r, hr, hcs, _, _ => by
    refine ⟨?_, fun b _ => rfl, ?_, fun c _ => rfl, rfl⟩
    · exact (by rw [hr, ← hcs] : getEnt w a = some { r with components := [] })
    · intro p hp
      exact absurd hp (List.not_mem_nil p)
  | (tk, c) :: rest, w, a, r, hr, hcs, hkeys, hsnd => by
    have hstep : (Entity.remove_component w a tk).1 =
        modEnt (modComp (modComp w c
            (fun k => { k with onRemoveFired := k.onRemoveFired + 1 }))
          c (fun k => { k with entity := none }))
          a (fun q => { q with components := delA tk q.components }) := by
      simp [Entity.remove_component, hr, hcs, lookupA]
    have hw1a : getEnt ((Entity.remove_component w a tk).1) a =
        some { r with components := rest } := by
      rw [hstep, getEnt_modEnt_eq, getEnt_modComp, getEnt_modComp, hr]
      simp only [Option.map_some']
      rw [hcs]
      simp [delA]
    rw [show keysA ((tk, c) :: rest) = tk :: keysA rest from rfl, List.foldl_cons]
    have hkeys' : (keysA rest).Nodup := by
      simp only [keysA, List.map_cons, List.nodup_cons] at hkeys
      exact hkeys.2
    have hsnd' : (rest.map Prod.snd).Nodup := by
      simp only [List.map_cons, List.nodup_cons] at hsnd
      exact hsnd.2
    have hcnotin : c ∉ rest.map Prod.snd := by
      simp only [List.map_cons, List.nodup_cons] at hsnd
      exact hsnd.1
    obtain ⟨ih1, ih2, ih3, ih4, ih5⟩ :=
      remove_all_components_spec rest ((Entity.remove_component w a tk).1) a
        { r with components := rest } hw1a rfl hkeys' hsnd'
    have hw1frame : ∀ b, b ≠ a →
        getEnt ((Entity.remove_component w a tk).1) b = getEnt w b := by
      intro b hb
      rw [hstep, getEnt_modEnt_ne _ _ _ _ (Ne.symm hb), getEnt_modComp, getEnt_modComp]
    have hw1comp_hit : ∀ cr, getComp w c = some cr →
        getComp ((Entity.remove_component w a tk).1) c =
          some { cr with entity := none, onRemoveFired := cr.onRemoveFired + 1 } := by
      intro cr hcr
      rw [hstep, getComp_modEnt, getComp_modComp_eq, getComp_modComp_eq, hcr]
      rfl
    have hw1comp_frame : ∀ x, x ≠ c →
        getComp ((Entity.remove_component w a tk).1) x = getComp w x := by
      intro x hx
      rw [hstep, getComp_modEnt, getComp_modComp_ne _ _ _ _ (Ne.symm hx),
        getComp_modComp_ne _ _ _ _ (Ne.symm hx)]
    have hw1scene : ((Entity.remove_component w a tk).1).scene = w.scene := by
      rw [hstep]
      rfl
    refine ⟨ih1, ?_, ?_, ?_, ?_⟩
    · intro b hb
      rw [ih2 b hb, hw1frame b hb]
    · intro p hp cr hcr
      rcases List.mem_cons.mp hp with h1 | h1
    -- head component: modified by the first step, untouched afterwards
      · have hpc : p.2 = c := by rw [h1]
        rw [hpc] at hcr ⊢
        rw [ih4 c hcnotin, hw1comp_hit cr hcr]
      · have hpne : p.2 ≠ c := by
          intro hc
          exact hcnotin (hc ▸ List.mem_map.mpr ⟨p, h1, rfl⟩)
        exact ih3 p h1 cr (by rw [hw1comp_frame p.2 hpne, hcr])
    · intro x hx
      simp only [List.map_cons, List.mem_cons, not_or] at hx
      rw [ih4 x hx.2, hw1comp_frame x hx.1]
    · rw [ih5, hw1scene]

theorem entsOfList_cons (k : ETree) (ks : List ETree) :
    entsOfList (k :: ks) = treeEnts k ++ entsOfList ks := by
  unfold entsOfList
  rw [List.map_cons, List.flatten_cons]

theorem compsOfList_cons (k : ETree) (ks : List ETree) :
    compsOfList (k :: ks) = treeComps k ++ compsOfList ks := by
  unfold compsOfList
  rw [List.map_cons, List.flatten_cons]

theorem identsOfList_cons (k : ETree) (ks : List ETree) :
    identsOfList (k :: ks) = treeIdents k ++ identsOfList ks := by
  unfold identsOfList
  rw [List.map_cons, List.flatten_cons]

theorem getComp_congr_comps (w w' : World) (c : Nat) (h : w'.comps = w.comps) :
    getComp w' c = getComp w c := by
  unfold getComp
  rw [h]

/-! `Entity.destroy` on positive fuel, re-associated into its four
phases (children, components, parent, scene); each phase function is
extracted verbatim from the body of `Entity.destroy`, and
`destroy_eq_phases` certifies the re-association definitionally. -/

def destroyPhase4 (w3 : World) (e : Nat) : World :=
  match getEnt w3 e with
  | some r => if r.inScene then (Scene.remove_entity w3 e).1 else w3
  | none => w3

def destroyPhase3 (w2 : World) (e : Nat) : World :=
  destroyPhase4
    (match getEnt w2 e with
     | some r =>
       match r.parent with
       | some p => (Entity.remove_child w2 p e).1
       | none => w2
     | none => w2) e

def destroyPhase2 (w1 : World) (e : Nat) : World :=
  destroyPhase3
    ((match getEnt w1 e with
      | some r => keysA r.components
      | none => []).foldl (fun acc t => (Entity.remove_component acc e t).1) w1) e

theorem destroy_eq_phases (fuel : Nat) (w : World) (e : Nat) :
    Entity.destroy (fuel + 1) w e =
      destroyPhase2
        ((match getEnt w e with
          | some r => r.children
          | none => []).foldl (fun acc c => Entity.destroy fuel acc c) w) e := rfl

theorem destroyPhase2_spec (w1 : World) (e : Nat) (r1 : EntityRec)
    (hr : getEnt w1 e = some r1) :
    destroyPhase2 w1 e =
      destroyPhase3
        ((keysA r1.components).foldl (fun acc t => (Entity.remove_component acc e t).1) w1)
        e := by
  unfold destroyPhase2
  rw [hr]

theorem destroyPhase3_spec (w2 : World) (e : Nat) (r2 : EntityRec)
    (hr : getEnt w2 e = some r2) :
    destroyPhase3 w2 e =
      destroyPhase4
        (match r2.parent with
         | some p => (Entity.remove_child w2 p e).1
         | none => w2) e := by
  unfold destroyPhase3
  rw [hr]

theorem destroyPhase4_spec (w3 : World) (e : Nat) (r3 : EntityRec)
    (hr : getEnt w3 e = some r3) (hin : r3.inScene = true) :
    destroyPhase4 w3 e = (Scene.remove_entity w3 e).1 := by
  unfold destroyPhase4
  rw [hr]
  show (if r3.inScene = true then (Scene.remove_entity w3 e).1 else w3) =
    (Scene.remove_entity w3 e).1
  simp [hin]

theorem TreeWF.inv (w : World) (a i : Nat) (cs : List (Nat × Nat)) (kids : List ETree)
    (h : TreeWF w (.node a i cs kids)) :
    ∃ r, getEnt w a = some r ∧ r.ident = i ∧ r.components = cs ∧
      r.children = kids.map ETree.rootAddr ∧ r.inScene = true ∧
      lookupA i w.scene.entities = some a ∧ (keysA cs).Nodup ∧
      (∀ k ∈ kids, ∃ rk, getEnt w k.rootAddr = some rk ∧ rk.parent = some a) ∧
      (∀ k ∈ kids, TreeWF w k) := by
  cases h with
  | node _ _ _ _ r hr hident hcomps hchildren hin hreg hkeys hpar hkids =>
    exact ⟨r, hr, hident, hcomps, hchildren, hin, hreg, hkeys, hpar, hkids⟩

mutual

/-- Full effect of `Entity.destroy` on a well-formed subtree, given
enough fuel: (1) entity records outside the subtree other than the
root's former parent are untouched; (2) the former parent's child list
loses the first occurrence of the root; (3) every component owned
inside the subtree fires `on_remove` exactly once and loses its entity
back-reference; (4) other components are untouched; (5) every id of the
subtree disappears from the scene's entity dict; (6) other registry
entries are untouched; (7) the registry's key list only shrinks. -/
theorem destroy_tree_spec (t : ETree) :
    ∀ (w : World) (f : Nat) (r0 : EntityRec),
      treeHeight t ≤ f + 1 →
      TreeWF w t →
      (treeEnts t).Nodup →
      (treeComps t).Nodup →
      (treeIdents t).Nodup →
      (keysA w.scene.entities).Nodup →
      getEnt w t.rootAddr = some r0 →
      (∀ p, r0.parent = some p → p ∉ treeEnts t) →
      ((∀ b, b ∉ treeEnts t → (∀ p, r0.parent = some p → b ≠ p) →
          getEnt (Entity.destroy (f + 1) w t.rootAddr) b = getEnt w b) ∧
       (∀ p rp, r0.parent = some p → getEnt w p = some rp →
          getEnt (Entity.destroy (f + 1) w t.rootAddr) p =
            some { rp with children := rp.children.erase t.rootAddr }) ∧
       (∀ c ∈ treeComps t, ∀ cr, getComp w c = some cr →
          getComp (Entity.destroy (f + 1) w t.rootAddr) c =
            some { cr with entity := none, onRemoveFired := cr.onRemoveFired + 1 }) ∧
       (∀ c, c ∉ treeComps t →
          getComp (Entity.destroy (f + 1) w t.rootAddr) c = getComp w c) ∧
       (∀ k ∈ treeIdents t,
          lookupA k (Entity.destroy (f + 1) w t.rootAddr).scene.entities = none) ∧
       (∀ k, k ∉ treeIdents t →
          lookupA k (Entity.destroy (f + 1) w t.rootAddr).scene.entities =
            lookupA k w.scene.entities) ∧
       (keysA (Entity.destroy (f + 1) w t.rootAddr).scene.entities).Sublist
         (keysA w.scene.entities)) := by
  intro w f r0 hht hwf hne hnc hni hreg hr0 hpar
  cases t with
  | node a i cs kids =>
    obtain ⟨r, hr, hident, hcomps, hchildren, hin, hregi, hkeys, hparkids, hkids⟩ :=
      TreeWF.inv w a i cs kids hwf
    simp only [ETree.rootAddr] at hr0 ⊢
    simp only [treeEnts_node] at hne hpar ⊢
    simp only [treeComps_node] at hnc ⊢
    simp only [treeIdents_node] at hni ⊢
    have heq : r = r0 := Option.some.inj (hr.symm.trans hr0)
    rw [heq] at hident hcomps hchildren hin
    obtain ⟨hanotin, hneK⟩ := List.nodup_cons.mp hne
    obtain ⟨hncCs, hncK, hdisjC⟩ := List.nodup_append.mp hnc
    obtain ⟨hinotin, hniK⟩ := List.nodup_cons.mp hni
    obtain ⟨L1, L2, L3, L4, L5, L6, L7⟩ :=
      destroy_list_spec kids w f a
        (fun k hk => by have := kid_treeHeight_le a i cs kids k hk; omega)
        hkids hparkids hneK hncK hniK hreg hanotin
    obtain ⟨cl, hw1a⟩ := L2 r0 hr0
    -- phase 1: the child fold
    have hfold : (match getEnt w a with | some rr => rr.children | none => []).foldl
        (fun acc c => Entity.destroy f acc c) w =
        kids.foldl (fun acc k => Entity.destroy f acc k.rootAddr) w := by
      rw [hr0]
      show r0.children.foldl (fun acc c => Entity.destroy f acc c) w = _
      rw [hchildren, List.foldl_map]
    have hmain : Entity.destroy (f + 1) w a =
        destroyPhase2 (kids.foldl (fun acc k => Entity.destroy f acc k.rootAddr) w) a := by
      rw [destroy_eq_phases, hfold]
    -- phase 2: strip the components
    have hks : ({ r0 with children := cl } : EntityRec).components = cs := hcomps
    obtain ⟨A1, A2, A3, A4, A5⟩ :=
      remove_all_components_spec cs
        (kids.foldl (fun acc k => Entity.destroy f acc k.rootAddr) w) a
        { r0 with children := cl } hw1a hks hkeys hncCs
    have hmain2 : Entity.destroy (f + 1) w a =
        destroyPhase3 ((keysA cs).foldl (fun acc t => (Entity.remove_component acc a t).1)
          (kids.foldl (fun acc k => Entity.destroy f acc k.rootAddr) w)) a := by
      rw [hmain, destroyPhase2_spec _ a { r0 with children := cl } hw1a, hks]
    have hr2 : getEnt ((keysA cs).foldl (fun acc t => (Entity.remove_component acc a t).1)
        (kids.foldl (fun acc k => Entity.destroy f acc k.rootAddr) w)) a =
        some { r0 with children := cl, components := [] } := A1
    -- phase 3: detach from the parent
    have hphase3 : ∃ W3 : World,
        Entity.destroy (f + 1) w a = destroyPhase4 W3 a ∧
        (∀ x, x ≠ a → (∀ p, r0.parent = some p → x ≠ p) →
          getEnt W3 x = getEnt ((keysA cs).foldl
            (fun acc t => (Entity.remove_component acc a t).1)
            (kids.foldl (fun acc k => Entity.destroy f acc k.rootAddr) w)) x) ∧
        (∀ p rp, r0.parent = some p →
          getEnt ((keysA cs).foldl (fun acc t => (Entity.remove_component acc a t).1)
            (kids.foldl (fun acc k => Entity.destroy f acc k.rootAddr) w)) p = some rp →
          getEnt W3 p = some { rp with children := rp.children.erase a }) ∧
        (∃ r3, getEnt W3 a = some r3 ∧ r3.ident = r0.ident ∧ r3.inScene = r0.inScene) ∧
        W3.comps = ((keysA cs).foldl (fun acc t => (Entity.remove_component acc a t).1)
          (kids.foldl (fun acc k => Entity.destroy f acc k.rootAddr) w)).comps ∧
        W3.scene = ((keysA cs).foldl (fun acc t => (Entity.remove_component acc a t).1)
          (kids.foldl (fun acc k => Entity.destroy f acc k.rootAddr) w)).scene := by
      cases hp0 : r0.parent with
      | none =>
        refine ⟨_, ?_, fun x _ _ => rfl, ?_, ⟨_, hr2, rfl, rfl⟩, rfl, rfl⟩
        · rw [hmain2, destroyPhase3_spec _ a _ hr2,
            (show ({ r0 with children := cl, components := [] } : EntityRec).parent = none
              from hp0)]
        · intro p rp hps
          exact Option.noConfusion hps
      | some p =>
        have hpnotin : p ∉ a :: entsOfList kids := hpar p hp0
        have hpa : p ≠ a := fun hc => hpnotin (hc ▸ List.mem_cons_self _ _)
        have hpk : p ∉ entsOfList kids := fun hc => hpnotin (List.mem_cons_of_mem _ hc)
        have hW2p : getEnt ((keysA cs).foldl (fun acc t => (Entity.remove_component acc a t).1)
            (kids.foldl (fun acc k => Entity.destroy f acc k.rootAddr) w)) p = getEnt w p := by
          rw [A2 p hpa, L1 p hpk hpa]
        have hstep3 : Entity.destroy (f + 1) w a =
            destroyPhase4 ((Entity.remove_child
              ((keysA cs).foldl (fun acc t => (Entity.remove_component acc a t).1)
                (kids.foldl (fun acc k => Entity.destroy f acc k.rootAddr) w)) p a).1) a := by
          rw [hmain2, destroyPhase3_spec _ a _ hr2,
            (show ({ r0 with children := cl, components := [] } : EntityRec).parent = some p
              from hp0)]
        cases hq : getEnt w p with
        | none =>
          have hq2 : getEnt ((keysA cs).foldl (fun acc t => (Entity.remove_component acc a t).1)
              (kids.foldl (fun acc k => Entity.destroy f acc k.rootAddr) w)) p = none := by
            rw [hW2p, hq]
          have hrc : (Entity.remove_child
              ((keysA cs).foldl (fun acc t => (Entity.remove_component acc a t).1)
                (kids.foldl (fun acc k => Entity.destroy f acc k.rootAddr) w)) p a).1 =
              (keysA cs).foldl (fun acc t => (Entity.remove_component acc a t).1)
                (kids.foldl (fun acc k => Entity.destroy f acc k.rootAddr) w) := by
            unfold Entity.remove_child
            rw [hq2]
          refine ⟨_, by rw [hstep3, hrc], fun x _ _ => rfl, ?_, ⟨_, hr2, rfl, rfl⟩, rfl, rfl⟩
          intro p' rp hps hwp
          have hpp : p' = p := (Option.some.inj hps).symm
          rw [hpp, hq2] at hwp
          exact Option.noConfusion hwp
        | some rp0 =>
          have hq2 : getEnt ((keysA cs).foldl (fun acc t => (Entity.remove_component acc a t).1)
              (kids.foldl (fun acc k => Entity.destroy f acc k.rootAddr) w)) p = some rp0 := by
            rw [hW2p, hq]
          obtain ⟨RC1, RC2, RC3, RC4, RC5⟩ := remove_child_spec _ p a rp0 hq2 hpa
          obtain ⟨r3, hr3, hr3a, hr3b, _⟩ := RC5 _ hr2
          refine ⟨_, hstep3, ?_, ?_, ⟨r3, hr3, hr3a, hr3b⟩, RC3, RC4⟩
          · intro x hxa hxp
            exact RC2 x (hxp p rfl) hxa
          · intro p' rp hps hwp
            have hpp : p' = p := (Option.some.inj hps).symm
            subst hpp
            have hrr : rp = rp0 := Option.some.inj (hwp.symm.trans hq2)
            rw [hrr]
            exact RC1
    obtain ⟨W3, hmain3, P1, P2, ⟨r3, hr3, hr3id, hr3in⟩, P3comps, P4scene⟩ := hphase3
    -- phase 4: remove from the scene registry
    have hr3in' : r3.inScene = true := by rw [hr3in, hin]
    have hreg3 : lookupA r3.ident W3.scene.entities = some a := by
      rw [hr3id, hident, P4scene, A5, L6 i hinotin]
      exact hregi
    have hfinal : Entity.destroy (f + 1) w a = (Scene.remove_entity W3 a).1 := by
      rw [hmain3, destroyPhase4_spec W3 a r3 hr3 hr3in']
    obtain ⟨RE1, RE2, RE3⟩ := remove_entity_spec W3 a r3 hr3 (by rw [hreg3]; rfl)
    have hregW1nodup : (keysA ((kids.foldl
        (fun acc k => Entity.destroy f acc k.rootAddr) w)).scene.entities).Nodup :=
      hreg.sublist L7
    have hfinreg : (Entity.destroy (f + 1) w a).scene.entities =
        delA i ((kids.foldl (fun acc k => Entity.destroy f acc k.rootAddr) w)).scene.entities := by
      rw [hfinal, RE1, hr3id, hident, P4scene, A5]
    have hcompsfinal : ∀ x, getComp (Entity.destroy (f + 1) w a) x =
        getComp ((keysA cs).foldl (fun acc t => (Entity.remove_component acc a t).1)
          (kids.foldl (fun acc k => Entity.destroy f acc k.rootAddr) w)) x := by
      intro x
      rw [hfinal, getComp_congr_comps _ _ x RE3, getComp_congr_comps _ _ x P3comps]
    refine ⟨?_, ?_, ?_, ?_, ?_, ?_, ?_⟩
    · -- (1) entity frame
      intro b hb hbp
      have hba : b ≠ a := fun hc => hb (hc ▸ List.mem_cons_self _ _)
      have hbk : b ∉ entsOfList kids := fun hc => hb (List.mem_cons_of_mem _ hc)
      rw [hfinal, RE2 b hba, P1 b hba hbp, A2 b hba, L1 b hbk hba]
    · -- (2) the former parent loses the root
      intro p rp hp hwp
      have hpnotin : p ∉ a :: entsOfList kids := hpar p hp
      have hpa : p ≠ a := fun hc => hpnotin (hc ▸ List.mem_cons_self _ _)
      have hpk : p ∉ entsOfList kids := fun hc => hpnotin (List.mem_cons_of_mem _ hc)
      rw [hfinal, RE2 p hpa]
      refine P2 p rp hp ?_
      rw [A2 p hpa, L1 p hpk hpa]
      exact hwp
    · -- (3) on_remove fires once per subtree component
      intro c hc cr hcr
      rcases List.mem_append.mp hc with hcm | hck
      · obtain ⟨pp, hpp, hppc⟩ := List.mem_map.mp hcm
        have hcnotk : c ∉ compsOfList kids := fun hk => hdisjC hcm hk
        have hw1c : getComp ((kids.foldl (fun acc k => Entity.destroy f acc k.rootAddr) w)) c =
            getComp w c := L4 c hcnotk
        rw [hcompsfinal c]
        have h3 := A3 pp hpp cr (by rw [hppc, hw1c]; exact hcr)
        rw [hppc] at h3
        exact h3
      · have hcnotcs : c ∉ cs.map Prod.snd := fun hm => hdisjC hm hck
        rw [hcompsfinal c, A4 c hcnotcs]
        exact L3 c hck cr hcr
    · -- (4) component frame
      intro c hc
      have h1 : c ∉ cs.map Prod.snd := fun hm => hc (List.mem_append_left _ hm)
      have h2 : c ∉ compsOfList kids := fun hm => hc (List.mem_append_right _ hm)
      rw [hcompsfinal c, A4 c h1, L4 c h2]
    · -- (5) registry entries of the subtree are gone
      intro k hk
      rw [hfinreg]
      rcases List.mem_cons.mp hk with hki | hkk
      · rw [hki]
        exact lookupA_delA_eq_of_nodup i _ hregW1nodup
      · have hik : i ≠ k := fun hc => hinotin (hc ▸ hkk)
        rw [lookupA_delA_ne k i _ hik]
        exact L5 k hkk
    · -- (6) registry frame
      intro k hk
      have h1 : k ≠ i := fun hc => hk (hc ▸ List.mem_cons_self _ _)
      have h2 : k ∉ identsOfList kids := fun hc => hk (List.mem_cons_of_mem _ hc)
      rw [hfinreg, lookupA_delA_ne k i _ (Ne.symm h1)]
      exact L6 k h2
    · -- (7) registry keys only shrink
      rw [hfinreg]
      exact (keysA_delA_sublist i _).trans L7

/-- Specification of the fold of `Entity.destroy` over a list of
well-formed sibling subtrees sharing the parent `a`. -/
theorem destroy_list_spec (ks : List ETree) :
    ∀ (w : World) (f : Nat) (a : Nat),
      (∀ k ∈ ks, treeHeight k ≤ f) →
      (∀ k ∈ ks, TreeWF w k) →
      (∀ k ∈ ks, ∃ rk, getEnt w k.rootAddr = some rk ∧ rk.parent = some a) →
      (entsOfList ks).Nodup →
      (compsOfList ks).Nodup →
      (identsOfList ks).Nodup →
      (keysA w.scene.entities).Nodup →
      a ∉ entsOfList ks →
      ((∀ b, b ∉ entsOfList ks → b ≠ a →
          getEnt (ks.foldl (fun acc k => Entity.destroy f acc k.rootAddr) w) b =
            getEnt w b) ∧
       (∀ ra, getEnt w a = some ra → ∃ cl,
          getEnt (ks.foldl (fun acc k => Entity.destroy f acc k.rootAddr) w) a =
            some { ra with children := cl }) ∧
       (∀ c ∈ compsOfList ks, ∀ cr, getComp w c = some cr →
          getComp (ks.foldl (fun acc k => Entity.destroy f acc k.rootAddr) w) c =
            some { cr with entity := none, onRemoveFired := cr.onRemoveFired + 1 }) ∧
       (∀ c, c ∉ compsOfList ks →
          getComp (ks.foldl (fun acc k => Entity.destroy f acc k.rootAddr) w) c =
            getComp w c) ∧
       (∀ k ∈ identsOfList ks,
          lookupA k (ks.foldl (fun acc k => Entity.destroy f acc k.rootAddr) w).scene.entities =
            none) ∧
       (∀ k, k ∉ identsOfList ks →
          lookupA k (ks.foldl (fun acc k => Entity.destroy f acc k.rootAddr) w).scene.entities =
            lookupA k w.scene.entities) ∧
       (keysA (ks.foldl (fun acc k => Entity.destroy f acc k.rootAddr) w).scene.entities).Sublist
         (keysA w.scene.entities)) := by
  cases ks with
  | nil =>
    intro w f a _ _ _ _ _ _ _ _
    refine ⟨fun b _ _ => rfl, ?_, ?_, fun c _ => rfl, ?_, fun k _ => rfl,
      List.Sublist.refl _⟩
    · intro ra hra
      exact ⟨ra.children, hra⟩
    · intro c hc
      exact absurd hc (List.not_mem_nil c)
    · intro k hk
      exact absurd hk (List.not_mem_nil k)
  | cons k rest =>
    intro w f a hh hwf hpar hne hnc hni hreg ha
    rw [entsOfList_cons] at hne ha
    rw [compsOfList_cons] at hnc
    rw [identsOfList_cons] at hni
    obtain ⟨hneK, hneR, hdisjE⟩ := List.nodup_append.mp hne
    obtain ⟨hncK, hncR, hdisjC⟩ := List.nodup_append.mp hnc
    obtain ⟨hniK, hniR, hdisjI⟩ := List.nodup_append.mp hni
    have haK : a ∉ treeEnts k := fun h => ha (List.mem_append_left _ h)
    have haR : a ∉ entsOfList rest := fun h => ha (List.mem_append_right _ h)
    obtain ⟨rk, hrk, hrkp⟩ := hpar k (List.mem_cons_self k rest)
    obtain ⟨f', rfl⟩ : ∃ f', f = f' + 1 := by
      have h1 := hh k (List.mem_cons_self k rest)
      have h2 := treeHeight_pos k
      exact ⟨f - 1, by omega⟩
    obtain ⟨T1, T2, T3, T4, T5, T6, T7⟩ :=
      destroy_tree_spec k w f' rk (hh k (List.mem_cons_self k rest))
        (hwf k (List.mem_cons_self k rest)) hneK hncK hniK hreg hrk
        (fun p hp => by
          have hpa : p = a := Option.some.inj (hp.symm.trans hrkp)
          rw [hpa]
          exact haK)
    have hEf : ∀ k' ∈ rest, ∀ b ∈ treeEnts k',
        getEnt (Entity.destroy (f' + 1) w k.rootAddr) b = getEnt w b := by
      intro k' hk' b hb
      have hbK : b ∉ treeEnts k := fun hc => hdisjE hc (mem_entsOfList rest k' hk' b hb)
      have hba : b ≠ a := fun hc => haR (hc ▸ mem_entsOfList rest k' hk' b hb)
      exact T1 b hbK (fun p hp => by
        have hpa : p = a := Option.some.inj (hp.symm.trans hrkp)
        rw [hpa]
        exact hba)
    have hCf : ∀ k' ∈ rest, ∀ c ∈ treeComps k',
        getComp (Entity.destroy (f' + 1) w k.rootAddr) c = getComp w c := by
      intro k' hk' c hc
      exact T4 c (fun hcc => hdisjC hcc (mem_compsOfList rest k' hk' c hc))
    have hIf : ∀ k' ∈ rest, ∀ c ∈ treeIdents k',
        lookupA c (Entity.destroy (f' + 1) w k.rootAddr).scene.entities =
          lookupA c w.scene.entities := by
      intro k' hk' c hc
      exact T6 c (fun hcc => hdisjI hcc (mem_identsOfList rest k' hk' c hc))
    have hwfR : ∀ k' ∈ rest, TreeWF (Entity.destroy (f' + 1) w k.rootAddr) k' :=
      fun k' hk' => TreeWF_mono w _ k' (hwf k' (List.mem_cons_of_mem _ hk'))
        (hEf k' hk') (hCf k' hk') (hIf k' hk')
    have hparR : ∀ k' ∈ rest, ∃ r',
        getEnt (Entity.destroy (f' + 1) w k.rootAddr) k'.rootAddr = some r' ∧
          r'.parent = some a := by
      intro k' hk'
      obtain ⟨r', h1, h2⟩ := hpar k' (List.mem_cons_of_mem _ hk')
      exact ⟨r', by rw [hEf k' hk' _ (rootAddr_mem_treeEnts k')]; exact h1, h2⟩
    obtain ⟨I1, I2, I3, I4, I5, I6, I7⟩ :=
      destroy_list_spec rest (Entity.destroy (f' + 1) w k.rootAddr) (f' + 1) a
        (fun k' hk' => hh k' (List.mem_cons_of_mem _ hk')) hwfR hparR hneR hncR hniR
        (hreg.sublist T7) haR
    simp only [List.foldl_cons, entsOfList_cons, compsOfList_cons, identsOfList_cons]
    refine ⟨?_, ?_, ?_, ?_, ?_, ?_, ?_⟩
    · intro b hb hba
      have hbK : b ∉ treeEnts k := fun hc => hb (List.mem_append_left _ hc)
      have hbR : b ∉ entsOfList rest := fun hc => hb (List.mem_append_right _ hc)
      rw [I1 b hbR hba]
      exact T1 b hbK (fun p hp => by
        have hpa : p = a := Option.some.inj (hp.symm.trans hrkp)
        rw [hpa]
        exact hba)
    · intro ra hra
      have h2 := T2 a ra hrkp hra
      obtain ⟨cl, hcl⟩ := I2 _ h2
      exact ⟨cl, hcl⟩
    · intro c hc cr hcr
      rcases List.mem_append.mp hc with hck | hcr'
      · have hcR : c ∉ compsOfList rest := fun hr2 => hdisjC hck hr2
        rw [I4 c hcR]
        exact T3 c hck cr hcr
      · have hcK : c ∉ treeComps k := fun hk2 => hdisjC hk2 hcr'
        exact I3 c hcr' cr (by rw [T4 c hcK]; exact hcr)
    · intro c hc
      have h1 : c ∉ treeComps k := fun hm => hc (List.mem_append_left _ hm)
      have h2 : c ∉ compsOfList rest := fun hm => hc (List.mem_append_right _ hm)
      rw [I4 c h2]
      exact T4 c h1
    · intro x hx
      rcases List.mem_append.mp hx with hxk | hxr
      · have hxR : x ∉ identsOfList rest := fun hr2 => hdisjI hxk hr2
        rw [I6 x hxR]
        exact T5 x hxk
      · exact I5 x hxr
    · intro x hx
      have h1 : x ∉ treeIdents k := fun hm => hx (List.mem_append_left _ hm)
      have h2 : x ∉ identsOfList rest := fun hm => hx (List.mem_append_right _ hm)
      rw [I6 x h2]
      exact T6 x h1
    · exact I7.trans T7

end

theorem mem_treeComps_rootCs (t : ETree) (p : Nat × Nat) (hp : p ∈ t.rootCs) :
    p.2 ∈ treeComps t := by
  cases t with
  | node a i cs kids =>
    rw [treeComps_node]
    exact List.mem_append_left _ (List.mem_map.mpr ⟨p, hp, rfl⟩)

theorem rootIdent_eq (w : World) (t : ETree) (r0 : EntityRec) (hwf : TreeWF w t)
    (hr0 : getEnt w t.rootAddr = some r0) : r0.ident = t.rootIdent := by
  cases t with
  | node a i cs kids =>
    obtain ⟨r, hr, hident, _, _, _, _, _, _⟩ := TreeWF.inv w a i cs kids hwf
    have heq : r = r0 := Option.some.inj (hr.symm.trans hr0)
    exact heq ▸ hident

/-- C5: for an entity `E` registered in a scene whose object graph under
`E` is the well-formed subtree `t` (distinct addresses, component
instances and ids; `E`'s former parent outside the subtree), `E.destroy()`
fires `on_remove` exactly once for each of `E`'s components, leaves `E`'s
id absent from the scene's entity map, removes `E` from its former
parent's child list, and, having destroyed every child first, leaves
every descendant's id absent from the scene's entity map as well. -/
theorem entity_destroy_cascade
    (t : ETree) (w : World) (f : Nat) (r0 : EntityRec)
    (hht : treeHeight t ≤ f + 1)
    (hwf : TreeWF w t)
    (hne : (treeEnts t).Nodup) (hnc : (treeComps t).Nodup) (hni : (treeIdents t).Nodup)
    (hreg : (keysA w.scene.entities).Nodup)
    (hr0 : getEnt w t.rootAddr = some r0)
    (hpar : ∀ p, r0.parent = some p → p ∉ treeEnts t) :
    (∀ p ∈ t.rootCs, ∀ cr, getComp w p.2 = some cr →
      getComp (Entity.destroy (f + 1) w t.rootAddr) p.2 =
        some { cr with entity := none, onRemoveFired := cr.onRemoveFired + 1 }) ∧
    lookupA r0.ident (Entity.destroy (f + 1) w t.rootAddr).scene.entities = none ∧
    (∀ p rp, r0.parent = some p → getEnt w p = some rp → rp.children.Nodup →
      ∃ rp', getEnt (Entity.destroy (f + 1) w t.rootAddr) p = some rp' ∧
        t.rootAddr ∉ rp'.children) ∧
    (∀ k ∈ treeIdents t,
      lookupA k (Entity.destroy (f + 1) w t.rootAddr).scene.entities = none) := by
  obtain ⟨T1, T2, T3, T4, T5, T6, T7⟩ :=
    destroy_tree_spec t w f r0 hht hwf hne hnc hni hreg hr0 hpar
  refine ⟨?_, ?_, ?_, T5⟩
  · intro p hp cr hcr
    exact T3 p.2 (mem_treeComps_rootCs t p hp) cr hcr
  · rw [rootIdent_eq w t r0 hwf hr0]
    exact T5 _ (rootIdent_mem_treeIdents t)
  · intro p rp hp hwp hnd
    refine ⟨{ rp with children := rp.children.erase t.rootAddr }, T2 p rp hp hwp, ?_⟩
    intro hmem
    exact absurd rfl ((hnd.mem_erase_iff.mp hmem).1)

/-- A concrete world for the cascade: grandparent `G` (address 2, id 2)
with child `P` (address 0, id 0, one component at address 10), whose
child is `C` (address 1, id 1, one component at address 11); all three
registered in the scene. -/
def c5world : World :=
  ⟨[(0, ⟨0, "P", true, [(5, 10)], some 2, [1], true, [], 0⟩),
    (1, ⟨1, "C", true, [(6, 11)], some 0, [], true, [], 0⟩),
    (2, ⟨2, "G", true, [], none, [0], true, [], 0⟩)],
   [(10, ⟨5, true, some 0, 1, 0, 0, 0, false, false, 0⟩),
    (11, ⟨6, true, some 1, 1, 0, 0, 0, false, false, 0⟩)],
   ⟨0, "S", [(0, 0), (1, 1), (2, 2)], [2]⟩, 12, 3⟩

/-- The subtree of `P` in `c5world`. -/
def c5tree : ETree := .node 0 0 [(5, 10)] [.node 1 1 [(6, 11)] []]

/-- The record of `P` in `c5world`. -/
def c5proot : EntityRec := ⟨0, "P", true, [(5, 10)], some 2, [1], true, [], 0⟩

theorem c5_treeEnts : treeEnts c5tree = [0, 1] := by
  show treeEnts (.node 0 0 [(5, 10)] [.node 1 1 [(6, 11)] []]) = [0, 1]
  rw [treeEnts_node, entsOfList_cons, treeEnts_node]
  rfl

theorem c5_treeComps : treeComps c5tree = [10, 11] := by
  show treeComps (.node 0 0 [(5, 10)] [.node 1 1 [(6, 11)] []]) = [10, 11]
  rw [treeComps_node, compsOfList_cons, treeComps_node]
  rfl

theorem c5_treeIdents : treeIdents c5tree = [0, 1] := by
  show treeIdents (.node 0 0 [(5, 10)] [.node 1 1 [(6, 11)] []]) = [0, 1]
  rw [treeIdents_node, identsOfList_cons, treeIdents_node]
  rfl

theorem c5_treeHeight : treeHeight c5tree = 2 := by
  show treeHeight (.node 0 0 [(5, 10)] [.node 1 1 [(6, 11)] []]) = 2
  rw [treeHeight_node]
  have h1 : treeHeight (.node 1 1 [(6, 11)] ([] : List ETree)) = 1 := by
    rw [treeHeight_node]
    rfl
  rw [List.map_cons, List.map_nil, h1]
  rfl

theorem c5_wf : TreeWF c5world c5tree := by
  refine TreeWF.node 0 0 [(5, 10)] [.node 1 1 [(6, 11)] []]
    c5proot rfl rfl rfl rfl rfl rfl (by decide) ?_ ?_
  · intro k hk
    rcases List.mem_cons.mp hk with h | h
    · subst h
      exact ⟨⟨1, "C", true, [(6, 11)], some 0, [], true, [], 0⟩, rfl, rfl⟩
    · exact absurd h (List.not_mem_nil k)
  · intro k hk
    rcases List.mem_cons.mp hk with h | h
    · subst h
      refine TreeWF.node 1 1 [(6, 11)] []
        ⟨1, "C", true, [(6, 11)], some 0, [], true, [], 0⟩
        rfl rfl rfl rfl rfl rfl (by decide) ?_ ?_
      · intro k' hk'
        exact absurd hk' (List.not_mem_nil k')
      · intro k' hk'
        exact absurd hk' (List.not_mem_nil k')
    · exact absurd h (List.not_mem_nil k)

/-- Witness for C5: destroying `P` (with fuel 2 for the two-level
subtree) fires `on_remove` on its component, deregisters ids 0 and 1,
and removes `P` from `G`'s children. -/
theorem entity_destroy_cascade_witness :
    (∀ p ∈ c5tree.rootCs, ∀ cr, getComp c5world p.2 = some cr →
      getComp (Entity.destroy 2 c5world c5tree.rootAddr) p.2 =
        some { cr with entity := none, onRemoveFired := cr.onRemoveFired + 1 }) ∧
    lookupA c5proot.ident (Entity.destroy 2 c5world c5tree.rootAddr).scene.entities = none ∧
    (∀ p rp, c5proot.parent = some p → getEnt c5world p = some rp → rp.children.Nodup →
      ∃ rp', getEnt (Entity.destroy 2 c5world c5tree.rootAddr) p = some rp' ∧
        c5tree.rootAddr ∉ rp'.children) ∧
    (∀ k ∈ treeIdents c5tree,
      lookupA k (Entity.destroy 2 c5world c5tree.rootAddr).scene.entities = none) :=
  entity_destroy_cascade c5tree c5world 1 c5proot
    (by rw [c5_treeHeight]) c5_wf
    (by rw [c5_treeEnts]; decide) (by rw [c5_treeComps]; decide)
    (by rw [c5_treeIdents]; decide) (by decide) rfl
    (by
      intro p hp
      rw [c5_treeEnts]
      have : p = 2 := Option.some.inj hp.symm
      rw [this]
      decide)

end PyCraft
